import Mathlib

/-!
Quacktors: actor lifecycle, monitors and routing.

A shallow embedding of the actor runtime in `actor.go`, `pid.go` and
`context.go`.  Go channels are numbered; a `World` records which channels are
closed, what the buffered message channels hold, which watcher goroutines exist
and what they wait for, and every call of `doSend` made by a watcher.
Operations that can block forever or panic return `Except Fault`.  The worker
loop is a step function on the signal its `select` picks; the order in which
`range` visits a map is a parameter of the world.  A caller of `Kill` or
`Monitor` holds a read lock of the pid while it waits in its send; the world
records these senders, and `cleanup` takes the write lock of each endpoint
before it closes it.  The lock `monitorSetupMu` is taken by the worker
goroutine only.  The locking code is also described apart, as sequences of
primitive operations.
-/

namespace Quacktors

/-! ## Data model -/

/-- The identity of a `*Pid`: the two fields printed by `Pid.String`. -/
structure PidRef where
  MachineId : String
  Id : String
deriving DecidableEq, Repr

/-- `Pid.String`: `fmt.Sprintf("%s@%s", pid.Id, pid.MachineId)`. -/
def PidRef.String (p : PidRef) : String :=
  p.Id ++ "@" ++ p.MachineId

/-- Modelled from the spec: the message types, whose declarations are not in
the sources: the built-in variants generic payload, poison-pill and
termination-notice(who), and user variants identified by a string tag.  A
`Message` carries its dynamic Go type: a struct value and the pointer to that
struct which the code builds with `&` are different dynamic types. -/
inductive Message where
  | GenericMessagePtr (Value : String)
  | GenericMessageVal (Value : String)
  | PoisonPillVal
  | PoisonPillPtr
  | DownMessagePtr (Who : PidRef)
  | DownMessageVal (Who : PidRef)
  | User (tag : String) (payload : String)
deriving DecidableEq, Repr

/-- How an operation fails to complete: it blocks forever, or it panics. -/
inductive Fault where
  | blocked
  | panic (reason : String)
deriving DecidableEq, Repr

/-- What a watcher goroutine started by `setupMonitor` is doing. -/
inductive WatcherStatus where
  | waiting
  | cancelled
  | fired
deriving DecidableEq, Repr

/-- The goroutine started by `setupMonitor`: it selects on its two channels. -/
structure Watcher where
  monitorQuitChannel : Nat
  monitorChannel : Nat
  monitor : PidRef
  status : WatcherStatus
deriving DecidableEq, Repr

/-- The `Pid` struct without its mutexes.  A channel field is `none` when it
is `nil`; `monitorQuitChannels` is `none` when the map itself is `nil`. -/
structure Pid where
  MachineId : String
  Id : String
  quitChan : Option Nat
  messageChan : Option Nat
  monitorChan : Option Nat
  demonitorChan : Option Nat
  scheduled : List (String × Nat)
  monitorQuitChannels : Option (List (String × Nat))
deriving DecidableEq, Repr

/-- The pointer identity of a pid. -/
def Pid.ref (p : Pid) : PidRef :=
  ⟨p.MachineId, p.Id⟩

/-- Modelled from the spec: a connection of the machine registry, which is not
in the sources: the connection state and the outbound channel accepting
`(targetPid, message)`. -/
structure Machine where
  connected : Bool
  messageChan : List (PidRef × Message)
deriving DecidableEq, Repr

/-- The mutexes of a `Pid`. -/
inductive Mutex where
  | quitChanMu
  | messageChanMu
  | monitorChanMu
  | demonitorChanMu
  | monitorSetupMu
deriving DecidableEq, Repr

/-- A goroutine that has taken a read lock of the pid and waits in its send on
an unbuffered endpoint, which only the worker loop receives from: the goroutine
of `Context.Kill`, or a caller of `Context.Monitor` with its own pid. -/
inductive Sender where
  | kill
  | monitor (self : PidRef)
deriving DecidableEq, Repr

/-- The read lock a waiting sender holds: `quitChanMu.RLock()` in
`Context.Kill`, `monitorChanMu.RLock()` in `Context.Monitor`. -/
def Sender.mutex : Sender → Mutex
  | .kill => .quitChanMu
  | .monitor _ => .monitorChanMu

/-- An order in which `range` visits the entries of a map.  Go leaves the
order unspecified: any rearrangement of the entries can occur. -/
structure MapOrder where
  run : List (String × Nat) → List (String × Nat)
  perm : ∀ l, (run l).Perm l

/-- The order in which the entries are stored. -/
def MapOrder.stored : MapOrder :=
  ⟨fun l => l, fun l => List.Perm.refl l⟩

/-- The state around one actor: the local machine id, the machine registry,
the order in which the runtime ranges over maps, the pid registry, the actor's
own pid, the channels that have been closed, the contents of the buffered
message channels, the watcher goroutines, the calls of `doSend` made by
watchers (recipient and message), and the senders that wait on an endpoint of
the pid while holding its read lock. -/
structure World where
  machineId : String
  machines : List (String × Machine)
  rangeOrder : MapOrder
  registry : List Pid
  pid : Pid
  nextChan : Nat
  closed : List Nat
  buffers : List (Nat × List Message)
  watchers : List Watcher
  doSendLog : List (PidRef × Message)
  blocked : List Sender

/-! ## Go maps from subscriber name to channel -/

/-- Assignment `m[k] = v`. -/
def mapSet (m : List (String × Nat)) (k : String) (v : Nat) : List (String × Nat) :=
  (k, v) :: m.filter (fun e => e.1 ≠ k)

/-- Deletion `delete(m, k)`. -/
def mapDelete (m : List (String × Nat)) (k : String) : List (String × Nat) :=
  m.filter (fun e => e.1 ≠ k)

/-- Lookup `m[k]`; a missing key gives the zero value, a nil channel. -/
def mapGet (m : List (String × Nat)) (k : String) : Option Nat :=
  (m.find? (fun e => e.1 = k)).map Prod.snd

/-! ## Channels -/

/-- A watcher takes a value (or the close notification) on channel `c`:
the quit case returns, the fire case calls `doSend(monitor, &DownMessage)`. -/
def Watcher.receive (who : PidRef) (x : Watcher) (c : Nat) :
    Option (Watcher × List (PidRef × Message)) :=
  if x.status = .waiting then
    if x.monitorQuitChannel = c then
      some ({ x with status := .cancelled }, [])
    else if x.monitorChannel = c then
      some ({ x with status := .fired }, [(x.monitor, .DownMessagePtr who)])
    else none
  else none

/-- One value sent on `c` is taken by the first watcher waiting on `c`. -/
def deliver (who : PidRef) : List Watcher → Nat →
    Option (List Watcher × List (PidRef × Message))
  | [], _ => none
  | x :: xs, c =>
    match x.receive who c with
    | some (x', out) => some (x' :: xs, out)
    | none =>
      match deliver who xs c with
      | some (xs', out) => some (x :: xs', out)
      | none => none

/-- Closing `c` wakes every watcher waiting on `c`. -/
def wakeAll (who : PidRef) : List Watcher → Nat →
    List Watcher × List (PidRef × Message)
  | [], _ => ([], [])
  | x :: xs, c =>
    let r := wakeAll who xs c
    match x.receive who c with
    | some (x', out) => (x' :: r.1, out ++ r.2)
    | none => (x :: r.1, r.2)

/-- Send `ch <- true` on an unbuffered channel read only by watchers. -/
def chanSend (w : World) (ch : Option Nat) : Except Fault World :=
  match ch with
  | none => .error .blocked
  | some c =>
    if c ∈ w.closed then .error (.panic "send on closed channel")
    else
      match deliver w.pid.ref w.watchers c with
      | none => .error .blocked
      | some (ws, out) => .ok { w with watchers := ws, doSendLog := w.doSendLog ++ out }

/-- Call `close(ch)`. -/
def chanClose (w : World) (ch : Option Nat) : Except Fault World :=
  match ch with
  | none => .error (.panic "close of nil channel")
  | some c =>
    if c ∈ w.closed then .error (.panic "close of closed channel")
    else
      let r := wakeAll w.pid.ref w.watchers c
      .ok { w with closed := c :: w.closed, watchers := r.1, doSendLog := w.doSendLog ++ r.2 }

/-- The messages waiting in the buffered channel `c`. -/
def bufGet (b : List (Nat × List Message)) (c : Nat) : List Message :=
  ((b.find? (fun e => e.1 = c)).map Prod.snd).getD []

/-- Replace the contents of the buffered channel `c`. -/
def bufSet (b : List (Nat × List Message)) (c : Nat) (ms : List Message) :
    List (Nat × List Message) :=
  (c, ms) :: b.filter (fun e => e.1 ≠ c)

/-- The capacity of a mailbox: `make(chan Message, 2000)`. -/
def mailboxCapacity : Nat := 2000

/-! ## pid.go -/

/-- Modelled from the spec: `registerPid`, the registry's `register(pid)`,
which is not in the sources. -/
def registerPid (registry : List Pid) (pid : Pid) : List Pid :=
  pid :: registry

/-- Modelled from the spec: `deletePid`, the registry's `unregister(id)`,
which is not in the sources. -/
def deletePid (registry : List Pid) (id : String) : List Pid :=
  registry.filter (fun p => p.Id ≠ id)

/-- Modelled from the spec: `getByPidId`, the registry's `lookupById(id)`,
which is not in the sources. -/
def getByPidId (registry : List Pid) (id : String) : Option Pid :=
  registry.find? (fun p => p.Id = id)

/-- Modelled from the spec: `getMachine`, the machine registry's
`lookup(machineId)`, which is not in the sources. -/
def getMachine (machines : List (String × Machine)) (id : String) : Option Machine :=
  (machines.find? (fun e => e.1 = id)).map Prod.snd

/-- `Pid.setupMonitor`. -/
def setupMonitor (w : World) (monitor : PidRef) : Except Fault World :=
  let monitorChannel := w.nextChan
  let scheduled := mapSet w.pid.scheduled monitor.String monitorChannel
  let monitorQuitChannel := w.nextChan + 1
  match w.pid.monitorQuitChannels with
  | none => .error (.panic "assignment to entry in nil map")
  | some mq =>
    .ok { w with
      nextChan := w.nextChan + 2
      pid := { w.pid with
        scheduled := scheduled
        monitorQuitChannels := some (mapSet mq monitor.String monitorQuitChannel) }
      watchers := w.watchers ++ [⟨monitorQuitChannel, monitorChannel, monitor, .waiting⟩] }

/-- The map `pid.monitorQuitChannels` read as a map (a nil map reads as empty). -/
def Pid.quitMap (p : Pid) : List (String × Nat) :=
  p.monitorQuitChannels.getD []

/-- `delete(pid.monitorQuitChannels, name)`; deleting from a nil map is a no-op. -/
def Pid.deleteQuit (p : Pid) (name : String) : Pid :=
  { p with monitorQuitChannels := p.monitorQuitChannels.map (fun m => mapDelete m name) }

/-- `Pid.removeMonitor`. -/
def removeMonitor (w : World) (monitor : PidRef) : Except Fault World :=
  let name := monitor.String
  match chanSend w (mapGet w.pid.quitMap name) with
  | .error f => .error f
  | .ok w1 =>
    match chanClose w1 (mapGet w1.pid.quitMap name) with
    | .error f => .error f
    | .ok w2 =>
      match chanClose w2 (mapGet w2.pid.scheduled name) with
      | .error f => .error f
      | .ok w3 =>
        .ok { w3 with
          pid := { w3.pid.deleteQuit name with
            scheduled := mapDelete w3.pid.scheduled name } }

/-- The first loop of `cleanup`, over the entries of `pid.scheduled`. -/
def drainScheduled : World → List (String × Nat) → Except Fault World
  | w, [] => .ok w
  | w, (n, ch) :: rest =>
    match chanSend w (some ch) with
    | .error f => .error f
    | .ok w1 =>
      match chanClose w1 (some ch) with
      | .error f => .error f
      | .ok w2 =>
        drainScheduled
          { w2 with pid := { w2.pid with scheduled := mapDelete w2.pid.scheduled n } } rest

/-- The second loop of `cleanup`, over the entries of `pid.monitorQuitChannels`. -/
def closeQuitChannels : World → List (String × Nat) → Except Fault World
  | w, [] => .ok w
  | w, (n, c) :: rest =>
    match chanClose w (some c) with
    | .error f => .error f
    | .ok w1 => closeQuitChannels { w1 with pid := w1.pid.deleteQuit n } rest

/-- In `cleanup`: `mu.Lock()` followed by `close(ch)`.  `Lock` does not return
as long as a sender holds the read lock `mu`: that sender waits for the worker
loop, which has been left. -/
def closeEndpoint (w : World) (mu : Mutex) (ch : Option Nat) : Except Fault World :=
  if mu ∈ w.blocked.map Sender.mutex then .error .blocked else chanClose w ch

/-- `Pid.cleanup`.  When it does not complete, the result carries the world
at the statement where it stopped.  The lock `monitorSetupMu` is taken by the
worker goroutine only (`setupMonitor`, `removeMonitor`, `cleanup`), so it is
free whenever `cleanup` asks for it. -/
def cleanup (w : World) : Except (Fault × World) World :=
  let w0 := { w with registry := deletePid w.registry w.pid.Id }
  match closeEndpoint w0 .quitChanMu w0.pid.quitChan with
  | .error f => .error (f, w0)
  | .ok w1 =>
    let w1 := { w1 with pid := { w1.pid with quitChan := none } }
    match closeEndpoint w1 .messageChanMu w1.pid.messageChan with
    | .error f => .error (f, w1)
    | .ok w2 =>
      let w2 := { w2 with pid := { w2.pid with messageChan := none } }
      match closeEndpoint w2 .monitorChanMu w2.pid.monitorChan with
      | .error f => .error (f, w2)
      | .ok w3 =>
        let w3 := { w3 with pid := { w3.pid with monitorChan := none } }
        match closeEndpoint w3 .demonitorChanMu w3.pid.demonitorChan with
        | .error f => .error (f, w3)
        | .ok w4 =>
          let w4 := { w4 with pid := { w4.pid with demonitorChan := none } }
          match drainScheduled w4 (w4.rangeOrder.run w4.pid.scheduled) with
          | .error f => .error (f, w4)
          | .ok w5 =>
            match closeQuitChannels w5 (w5.rangeOrder.run w5.pid.quitMap) with
            | .error f => .error (f, w5)
            | .ok w6 => .ok { w6 with pid := { w6.pid with monitorQuitChannels := none } }

/-- `createPid` on the channels made at the top of `startActor`: the quit,
message, monitor and demonitor channels are `base .. base+3`.  The id is
the one `registerPid` gives the pid. -/
def createPid (machineId : String) (machines : List (String × Machine))
    (order : MapOrder) (registry : List Pid) (id : String) (base : Nat) : World :=
  let pid : Pid :=
    { MachineId := machineId, Id := id
      quitChan := some base, messageChan := some (base + 1)
      monitorChan := some (base + 2), demonitorChan := some (base + 3)
      scheduled := [], monitorQuitChannels := some [] }
  { machineId := machineId
    machines := machines
    rangeOrder := order
    registry := registerPid registry pid
    pid := pid
    nextChan := base + 4
    closed := []
    buffers := []
    watchers := []
    doSendLog := []
    blocked := [] }

/-- A request handled by the worker loop on behalf of a subscriber. -/
inductive MonOp where
  | setup (monitor : PidRef)
  | remove (monitor : PidRef)
deriving DecidableEq, Repr

/-- Run one monitor request. -/
def applyOp (w : World) : MonOp → Except Fault World
  | .setup m => setupMonitor w m
  | .remove m => removeMonitor w m

/-- Run monitor requests in order, stopping at the first that does not complete. -/
def applyOps : World → List MonOp → Except Fault World
  | w, [] => .ok w
  | w, op :: ops =>
    match applyOp w op with
    | .error f => .error f
    | .ok w1 => applyOps w1 ops

/-! ## actor.go: routing -/

/-- The send `ch <- message` on a message channel inside the goroutine of
`doSend`, seen from the caller of `doSend`: a nil channel or a full buffer
keeps the caller waiting; a closed channel panics, the deferred function
recovers and the caller is released. -/
def mailboxSend (w : World) (ch : Option Nat) (message : Message) : Except Fault World :=
  match ch with
  | none => .error .blocked
  | some c =>
    if c ∈ w.closed then .ok w
    else if (bufGet w.buffers c).length < mailboxCapacity then
      .ok { w with buffers := bufSet w.buffers c (bufGet w.buffers c ++ [message]) }
    else .error .blocked

/-- `doSend`. -/
def doSend (w : World) (toPid : Pid) (message : Message) : Except Fault World :=
  if toPid.MachineId ≠ w.machineId then
    match getMachine w.machines toPid.MachineId with
    | some m =>
      if m.connected then
        .ok { w with machines :=
          (toPid.MachineId, { m with messageChan := m.messageChan ++ [(toPid.ref, message)] })
            :: w.machines.filter (fun e => e.1 ≠ toPid.MachineId) }
      else .ok w
    | none => .ok w
  else
    match toPid.messageChan with
    | none =>
      match getByPidId w.registry toPid.Id with
      | some p => mailboxSend w p.messageChan message
      | none => .ok w
    | some c => mailboxSend w (some c) message

/-! ## context.go -/

/-- Modelled from the spec: the type `quitAction`, the explicit-quit sentinel
that the recovery handler of the worker tests for and whose declaration is not
in the sources, as one of the dynamic types of the value carried by a panic,
next to strings and runtime errors. -/
inductive PanicValue where
  | quitAction
  | str (s : String)
  | runtimeError (s : String)
deriving DecidableEq, Repr

/-- One statement of user code that cannot register deferred actions: an
observable effect, a call of `ctx.Quit()`, or a panic raised by the code. -/
inductive Step where
  | effect (tag : String)
  | quit
  | fail (v : PanicValue)
deriving DecidableEq, Repr

/-- A deferred zero-argument action `func()`. -/
structure Action where
  name : String
  body : List Step
deriving DecidableEq, Repr

/-- One statement of a behaviour: a `Step`, or `ctx.Defer(action)`. -/
inductive Stmt where
  | step (s : Step)
  | defer (a : Action)
deriving DecidableEq, Repr

/-- The `Context` of an actor. -/
structure Context where
  self : PidRef
  deferred : List Action
deriving DecidableEq, Repr

/-- `Context.Self`. -/
def Context.Self (c : Context) : PidRef :=
  c.self

/-- `Context.Quit`: the value it panics with, `panic("Bye cruel world!")`. -/
def Context.Quit (_c : Context) : PanicValue :=
  .str "Bye cruel world!"

/-- Modelled from the spec: `Context.Defer`, which is not in the sources:
"appends to the deferred list". -/
def Context.Defer (c : Context) (action : Action) : Context :=
  { c with deferred := c.deferred ++ [action] }

/-- `Context.Send`. -/
def Context.Send (_c : Context) (w : World) (toPid : Pid) (message : Message) :
    Except Fault World :=
  doSend w toPid message

/-- Modelled from the spec: the types `NoopAbortable` and `MonitorAbortable`,
whose declarations are not in the sources: the no-op and the active-cancel
handle that `Context.Monitor` builds. -/
inductive Abortable where
  | NoopAbortable
  | MonitorAbortable (pid : PidRef) (self : PidRef)
deriving DecidableEq, Repr

/-- What a call of `Context.Monitor` did: the value it returned (`none` is the
nil interface value) and the subscriber it sent on which channel. -/
structure MonitorResult where
  returned : Option Abortable
  sent : Option (Nat × PidRef)
deriving DecidableEq, Repr

/-- `Context.Monitor`.  `accepted` says whether the worker of `pid` takes the
request from the unbuffered monitor channel; until it does the caller waits. -/
def Context.Monitor (c : Context) (machineId : String) (pid : Pid) (accepted : Bool) :
    Except Fault MonitorResult :=
  if pid.MachineId ≠ machineId then
    .ok ⟨none, none⟩
  else
    match pid.monitorChan with
    | none => .ok ⟨some .NoopAbortable, none⟩
    | some ch =>
      if accepted then .ok ⟨some (.MonitorAbortable pid.ref c.self), some (ch, c.self)⟩
      else .error .blocked

/-! ## actor.go: the worker -/

/-- What the worker and the code it calls do, in order. -/
inductive Event where
  | info (msg : String)
  | warn (msg : String) (panic : PanicValue)
  | debug (msg : String)
  | run (message : Message)
  | exec (tag : String)
  | action (name : String)
  | cleanup
deriving DecidableEq, Repr

/-- An actor: the statements `Init` executes, and the statements `Run`
executes on a message, given the messages it has handled before (its state).
User code is taken to return or panic. -/
structure Actor where
  Init : List Stmt
  Run : List Message → Message → List Stmt

/-- Execute statements in order up to the first panic. -/
def execSteps (c : Context) : List Step → List Event × Option PanicValue
  | [] => ([], none)
  | .effect tag :: rest =>
    let r := execSteps c rest
    (.exec tag :: r.1, r.2)
  | .quit :: _ => ([], some c.Quit)
  | .fail v :: _ => ([], some v)

/-- Execute the statements of a behaviour in order up to the first panic. -/
def execStmts : Context → List Stmt → Context × List Event × Option PanicValue
  | c, [] => (c, [], none)
  | c, .step (.effect tag) :: rest =>
    let r := execStmts c rest
    (r.1, .exec tag :: r.2.1, r.2.2)
  | c, .step .quit :: _ => (c, [], some c.Quit)
  | c, .step (.fail v) :: _ => (c, [], some v)
  | c, .defer a :: rest => execStmts (c.Defer a) rest

/-- One deferred action called under its own `recover`. -/
def runAction (c : Context) (action : Action) : List Event :=
  .action action.name :: (execSteps c action.body).1

/-- The loop `for _, action := range ctx.deferred`. -/
def runDeferred (c : Context) : List Action → List Event
  | [] => []
  | action :: rest => runAction c action ++ runDeferred c rest

/-- The state of a worker goroutine. -/
inductive Status where
  | running
  | terminated
  | stuck (f : Fault)
deriving DecidableEq, Repr

/-- A worker: the world of its pid, its context, its state, the messages `Run`
has been invoked on, and what it has done so far. -/
structure Worker where
  world : World
  ctx : Context
  status : Status
  handled : List Message
  trace : List Event

/-- The log written by `recover()` in the deferred function of the worker. -/
def recoverLog (r : Option PanicValue) : List Event :=
  match r with
  | none => []
  | some .quitAction => [.info "actor quit"]
  | some v => [.warn "actor quit due to panic" v]

/-- The deferred function of the worker goroutine; `r` is what `recover()`
returns. -/
def terminate (k : Worker) (r : Option PanicValue) : Worker :=
  let ran :=
    if k.ctx.deferred.length ≠ 0 then
      .debug "executing deferred actor actions" :: runDeferred k.ctx k.ctx.deferred
    else []
  let ctx := if k.ctx.deferred.length ≠ 0 then { k.ctx with deferred := [] } else k.ctx
  let trace := k.trace ++ recoverLog r ++ ran ++ [.cleanup]
  match cleanup k.world with
  | .ok w => { k with world := w, ctx := ctx, status := .terminated, trace := trace }
  | .error (f, w) => { k with world := w, ctx := ctx, status := .stuck f, trace := trace }

/-- The type switch `case PoisonPill:`: the dynamic type is the struct type. -/
def isPoisonPill : Message → Bool
  | .PoisonPillVal => true
  | _ => false

/-- The message case of the worker loop. -/
def handleMessage (actor : Actor) (k : Worker) (message : Message) : Worker :=
  if isPoisonPill message then
    terminate { k with trace := k.trace ++ [.info "actor received poison pill"] } none
  else
    let r := execStmts k.ctx (actor.Run k.handled message)
    let k1 := { k with
      ctx := r.1
      handled := k.handled ++ [message]
      trace := k.trace ++ [.run message] ++ r.2.1 }
    match r.2.2 with
    | none => k1
    | some v => terminate k1 (some v)

/-- What the `select` of the worker loop picks. -/
inductive Signal where
  | quit
  | message
  | monitor (monitor : PidRef)
  | demonitor (monitor : PidRef)
deriving DecidableEq, Repr

/-- `Context.Kill`: the signal that its goroutine hands to the worker of
`pid`, if any: none for a pid of another machine or a nil quit channel. -/
def Context.Kill (_c : Context) (machineId : String) (pid : Pid) : Option Signal :=
  if pid.MachineId ≠ machineId then none
  else
    match pid.quitChan with
    | none => none
    | some _ => some .quit

/-- A call made by the worker loop that may panic or never return. -/
def workerCall (k : Worker) (r : Except Fault World) : Worker :=
  match r with
  | .ok w => { k with world := w }
  | .error (.panic reason) => terminate k (some (.runtimeError reason))
  | .error .blocked => { k with status := .stuck .blocked }

/-- The sender whose value the worker loop has received goes on and gives its
read lock back.  When no such sender was waiting, the signal stands for a
sender that arrives and is received at once. -/
def served (w : World) (sender : Sender) : World :=
  { w with blocked := w.blocked.erase sender }

/-- One iteration of the worker loop of `startActor`.  The quit case returns
from the loop, and the deferred function of the goroutine runs. -/
def workerStep (actor : Actor) (k : Worker) (s : Signal) : Worker :=
  match k.status with
  | .running =>
    match s with
    | .quit =>
      terminate { k with world := served k.world .kill
                         trace := k.trace ++ [.info "actor received quit event"] } none
    | .message =>
      match k.world.pid.messageChan with
      | none => k
      | some c =>
        match bufGet k.world.buffers c with
        | [] => k
        | message :: rest =>
          handleMessage actor
            { k with world := { k.world with buffers := bufSet k.world.buffers c rest } }
            message
    | .monitor monitor =>
      let k1 := { k with world := served k.world (.monitor monitor)
                         trace := k.trace ++ [.info "actor received monitor request"] }
      workerCall k1 (setupMonitor k1.world monitor)
    | .demonitor monitor =>
      let k1 := { k with trace := k.trace ++ [.info "actor received demonitor request"] }
      workerCall k1 (removeMonitor k1.world monitor)
  | _ => k

/-- Iterations of the worker loop. -/
def workerSteps (actor : Actor) : Worker → List Signal → Worker
  | k, [] => k
  | k, s :: rest => workerSteps actor (workerStep actor k s) rest

/-- `startActor`: the pid, the context, `Init`, and the worker about to enter
its loop.  A panic in `Init` reaches the caller and no worker is started. -/
def startActor (actor : Actor) (machineId : String) (machines : List (String × Machine))
    (order : MapOrder) (registry : List Pid) (id : String) (base : Nat) : Option Worker :=
  let world := createPid machineId machines order registry id base
  let ctx : Context := { self := world.pid.ref, deferred := [] }
  let r := execStmts ctx actor.Init
  match r.2.2 with
  | none =>
    some { world := world, ctx := r.1, status := .running, handled := []
           trace := r.2.1 ++ [.info "starting actor"] }
  | some _ => none

/-! ## Callers that wait for the worker -/

/-- The goroutine of `Context.Kill` up to its send: on a live local pid it has
taken `quitChanMu.RLock()` and waits in `pid.quitChan <- true`. -/
def killWaits (c : Context) (w : World) : World :=
  match c.Kill w.machineId w.pid with
  | some _ => { w with blocked := w.blocked ++ [.kill] }
  | none => w

/-- A caller of `Context.Monitor` up to its send: on a live local pid it has
taken `monitorChanMu.RLock()` and waits in `pid.monitorChan <- c.self`. -/
def monitorWaits (c : Context) (w : World) : World :=
  match c.Monitor w.machineId w.pid false with
  | .error _ => { w with blocked := w.blocked ++ [.monitor c.self] }
  | .ok _ => w

/-- What happens next around a pid: its worker loop takes a signal, some
context calls `Kill` on it, or some context calls `Monitor` on it. -/
inductive Move where
  | select (s : Signal)
  | Kill (c : Context)
  | Monitor (c : Context)

/-- One move.  Callers are recorded as long as the worker is in its loop:
once it has left the loop no caller is received any more, and what a caller
does then changes nothing the worker has done. -/
def move (actor : Actor) (k : Worker) : Move → Worker
  | .select s => workerStep actor k s
  | .Kill c =>
    match k.status with
    | .running => { k with world := killWaits c k.world }
    | _ => k
  | .Monitor c =>
    match k.status with
    | .running => { k with world := monitorWaits c k.world }
    | _ => k

/-- Moves in order. -/
def moves (actor : Actor) : Worker → List Move → Worker
  | k, [] => k
  | k, x :: rest => moves actor (move actor k x) rest

/-! ## One caller sending to one recipient -/

/-- What is scheduled next: the caller's next `Context.Send`, or the
recipient's worker taking the message case. -/
inductive Sched where
  | send
  | recv
deriving DecidableEq, Repr

/-- A caller with the messages it has still to send, and the recipient. -/
structure Sys where
  pending : List Message
  worker : Worker

/-- One scheduling step.  A `Context.Send` that cannot complete yet leaves
the caller waiting with the same message. -/
def Sys.step (actor : Actor) (c : Context) (toPid : Pid) (s : Sys) : Sched → Sys
  | .send =>
    match s.pending with
    | [] => s
    | message :: rest =>
      match c.Send s.worker.world toPid message with
      | .ok w => { pending := rest, worker := { s.worker with world := w } }
      | .error _ => s
  | .recv => { s with worker := workerStep actor s.worker .message }

/-- A run of the system under a schedule. -/
def Sys.run (actor : Actor) (c : Context) (toPid : Pid) : Sys → List Sched → Sys
  | s, [] => s
  | s, x :: rest => Sys.run actor c toPid (Sys.step actor c toPid s x) rest

/-! ## Locks -/

/-- The primitive operations of the locking code, in program order. -/
inductive SyncOp where
  | lock (m : Mutex)
  | unlock (m : Mutex)
  | rlock (m : Mutex)
  | runlock (m : Mutex)
  | chanSend (channel : String)
  | chanRecv (channel : String)
  | chanClose (channel : String)
  | makeChan (channel : String)
  | fieldRead (field : String)
  | mapWrite (map : String)
  | mapRead (map : String)
  | mapDelete (map : String)
  | go (goroutine : String)
  | log (msg : String)
deriving DecidableEq, Repr

/-- A send on an unbuffered channel waits for a receiver, a receive for a
sender. -/
def SyncOp.blocking : SyncOp → Bool
  | .chanSend _ => true
  | .chanRecv _ => true
  | _ => false

/-- The blocking operations performed while at least one lock is held;
`held` counts the locks held before the first operation. -/
def blockingUnderLock : Nat → List SyncOp → List SyncOp
  | _, [] => []
  | held, .lock _ :: rest => blockingUnderLock (held + 1) rest
  | held, .rlock _ :: rest => blockingUnderLock (held + 1) rest
  | held, .unlock _ :: rest => blockingUnderLock (held - 1) rest
  | held, .runlock _ :: rest => blockingUnderLock (held - 1) rest
  | held, op :: rest =>
    if op.blocking && 0 < held then op :: blockingUnderLock held rest
    else blockingUnderLock held rest

/-- The goroutine of `Context.Kill`. -/
def KillOps (machineId : String) (pid : Pid) : List SyncOp :=
  if pid.MachineId ≠ machineId then []
  else
    [.rlock .quitChanMu, .fieldRead "quitChan"] ++
      (match pid.quitChan with
        | none => []
        | some _ => [.chanSend "pid.quitChan"]) ++
      [.runlock .quitChanMu]

/-- The body of `Context.Monitor`. -/
def MonitorOps (machineId : String) (pid : Pid) : List SyncOp :=
  if pid.MachineId ≠ machineId then []
  else
    [.rlock .monitorChanMu, .fieldRead "monitorChan"] ++
      (match pid.monitorChan with
        | none => []
        | some _ => [.chanSend "pid.monitorChan"]) ++
      [.runlock .monitorChanMu]

/-- The body of `Pid.setupMonitor`. -/
def setupMonitorOps : List SyncOp :=
  [.log "setting up monitor", .lock .monitorSetupMu,
   .makeChan "monitorChannel", .mapWrite "scheduled",
   .makeChan "monitorQuitChannel", .mapWrite "monitorQuitChannels",
   .go "watcher", .unlock .monitorSetupMu]

/-- The body of `Pid.removeMonitor`. -/
def removeMonitorOps : List SyncOp :=
  [.lock .monitorSetupMu,
   .mapRead "monitorQuitChannels", .chanSend "pid.monitorQuitChannels[name]",
   .mapRead "monitorQuitChannels", .chanClose "pid.monitorQuitChannels[name]",
   .mapRead "scheduled", .chanClose "pid.scheduled[name]",
   .mapDelete "monitorQuitChannels", .mapDelete "scheduled",
   .log "monitor removed successfully", .unlock .monitorSetupMu]

/-! ## The actors of `api_test.go` -/

/-- The actor `p` of `TestMonitorWithKill` and `TestMonitorWithPoisonPill`:
it prints the value of a `*GenericMessage` and ignores everything else. -/
def testTarget : Actor :=
  { Init := []
    Run := fun _ message =>
      match message with
      | .GenericMessagePtr v => [.step (.effect ("Println " ++ v))]
      | _ => [] }

/-- The monitoring actor of the two tests: on a `*DownMessage` it asserts,
prints and calls `ctx.Quit()`. -/
def testMonitor : Actor :=
  { Init := [.step (.effect "Monitor p")]
    Run := fun _ message =>
      match message with
      | .DownMessagePtr _ =>
        [.step (.effect "assert.Equal"), .step (.effect "Println Actor went down!"),
         .step .quit]
      | _ => [] }

/-! ## Observations on traces -/

/-- The names of the deferred actions invoked in a trace, in order. -/
def actionNames : List Event → List String
  | [] => []
  | .action name :: rest => name :: actionNames rest
  | _ :: rest => actionNames rest

/-- Worker `k'` has gone through the termination path that was entered with
the trace `before` and the deferred actions `ds`: every action of `ds` was
invoked once, in order; `pid.cleanup` was called once, after them, as the
last thing; the deferred list is empty and the worker no longer runs. -/
def TerminatedAfter (before : List Event) (ds : List Action) (k' : Worker) : Prop :=
  actionNames k'.trace = actionNames before ++ ds.map Action.name ∧
  (∃ front, k'.trace = front ++ [Event.cleanup] ∧
    front.count Event.cleanup = before.count Event.cleanup) ∧
  k'.ctx.deferred = [] ∧
  k'.status ≠ .running

/-- A running worker on machine `m1` with two deferred actions, the first
of which fails. -/
def sampleWorker : Worker :=
  { world := createPid "m1" [] MapOrder.stored [] "p1" 0
    ctx :=
      { self := ⟨"m1", "p1"⟩
        deferred :=
          [⟨"first", [.effect "a", .fail (.str "boom"), .effect "b"]⟩, ⟨"second", [.effect "c"]⟩] }
    status := .running
    handled := []
    trace := [] }

/-- A subscriber on machine `m1`. -/
def sampleMonitor : PidRef := ⟨"m1", "p2"⟩

/-- A pid of another machine, as received over the network. -/
def remotePid : Pid :=
  ⟨"m2", "p9", none, none, none, none, [], none⟩

/-- The context of the monitoring actor of the tests, whose own pid is
`sampleMonitor`. -/
def monitorCtx : Context :=
  { self := sampleMonitor, deferred := [] }

/-- The context of another caller on machine `m1`. -/
def callerCtx : Context :=
  { self := ⟨"m1", "p3"⟩, deferred := [] }

/-- World `w'` has the machine id, registries, buffers and pid of `w`, except
possibly for the two maps of the pid. -/
def SameFrame (w w' : World) : Prop :=
  w'.machineId = w.machineId ∧ w'.machines = w.machines ∧ w'.registry = w.registry ∧
  w'.buffers = w.buffers ∧ w'.nextChan = w.nextChan ∧
  w'.pid.MachineId = w.pid.MachineId ∧ w'.pid.Id = w.pid.Id ∧
  w'.pid.quitChan = w.pid.quitChan ∧ w'.pid.messageChan = w.pid.messageChan ∧
  w'.pid.monitorChan = w.pid.monitorChan ∧ w'.pid.demonitorChan = w.pid.demonitorChan ∧
  w'.blocked = w.blocked

/-- A send to the handle `toPid` ends in the message channel `ch`: the pid is
local, and either the handle holds the channel itself or the handle is empty
and the registry resolves its id to a pid holding the channel. -/
def RoutesTo (w : World) (toPid : Pid) (ch : Nat) : Prop :=
  toPid.MachineId = w.machineId ∧
  (toPid.messageChan = some ch ∨
    (toPid.messageChan = none ∧
      ∃ p, getByPidId w.registry toPid.Id = some p ∧ p.messageChan = some ch))

/-- The recipient is alive and reachable through `toPid`: its worker runs, the
mailbox `ch` is its own and is open. -/
def LiveRecipient (k : Worker) (toPid : Pid) (ch : Nat) : Prop :=
  k.status = .running ∧ k.world.pid.messageChan = some ch ∧ ch ∉ k.world.closed ∧
  RoutesTo k.world toPid ch

/-- The messages of a system in the order in which `Run` has met or will meet
them: handled, waiting in the mailbox `ch`, still to be sent. -/
def Sys.flow (s : Sys) (ch : Nat) : List Message :=
  s.worker.handled ++ bufGet s.worker.world.buffers ch ++ s.pending

/-! ## Invariants of the monitor bookkeeping -/

/-- The channels of two watchers are all different. -/
def Watcher.Apart (x y : Watcher) : Prop :=
  x.monitorQuitChannel ≠ y.monitorQuitChannel ∧ x.monitorQuitChannel ≠ y.monitorChannel ∧
  x.monitorChannel ≠ y.monitorQuitChannel ∧ x.monitorChannel ≠ y.monitorChannel

/-- The watcher whose fire channel is `c` has fired. -/
def fireOn (c : Nat) (x : Watcher) : Watcher :=
  if x.monitorChannel = c then { x with status := .fired } else x

/-- The watcher whose quit channel is `c` has been cancelled. -/
def cancelOn (c : Nat) (x : Watcher) : Watcher :=
  if x.monitorQuitChannel = c then { x with status := .cancelled } else x

/-- The subscriber of the watcher whose fire channel is `c`. -/
def ownerMonitor (ws : List Watcher) (c : Nat) : PidRef :=
  ((ws.find? (fun x => x.monitorChannel = c)).map Watcher.monitor).getD ⟨"", ""⟩

/-- The channel discipline of the watchers: no two watchers share a channel,
the two channels of a watcher differ, and the channels of a waiting watcher
are open. -/
structure ChanInv (w : World) : Prop where
  apart : w.watchers.Pairwise Watcher.Apart
  own : ∀ x ∈ w.watchers, x.monitorQuitChannel ≠ x.monitorChannel
  open_ : ∀ x ∈ w.watchers, x.status = .waiting →
    x.monitorQuitChannel ∉ w.closed ∧ x.monitorChannel ∉ w.closed

/-- The invariant of the world of a running worker: the channel discipline,
fresh channel numbers, maps with one entry per name that point at the two
channels of one waiting watcher of that name, live endpoints, and no
`DownMessage` sent yet. -/
structure MonInv (w : World) : Prop where
  chan : ChanInv w
  fresh : ∀ x ∈ w.watchers, x.monitorQuitChannel < w.nextChan ∧ x.monitorChannel < w.nextChan
  closed_lt : ∀ c ∈ w.closed, c < w.nextChan
  quit_some : w.pid.monitorQuitChannels = some w.pid.quitMap
  sched_keys : (w.pid.scheduled.map Prod.fst).Nodup
  quit_keys : (w.pid.quitMap.map Prod.fst).Nodup
  sched_reg : ∀ e ∈ w.pid.scheduled, ∃ x ∈ w.watchers, x.monitorChannel = e.2 ∧
    x.status = .waiting ∧ x.monitor.String = e.1 ∧ (e.1, x.monitorQuitChannel) ∈ w.pid.quitMap
  quit_reg : ∀ e ∈ w.pid.quitMap, ∃ x ∈ w.watchers, x.monitorQuitChannel = e.2 ∧
    x.status = .waiting ∧ x.monitor.String = e.1 ∧ (e.1, x.monitorChannel) ∈ w.pid.scheduled
  endpoints : ∃ a, w.pid.quitChan = some a ∧ w.pid.messageChan = some (a + 1) ∧
    w.pid.monitorChan = some (a + 2) ∧ w.pid.demonitorChan = some (a + 3) ∧
    a + 3 < w.nextChan ∧ (∀ c ∈ w.closed, a + 3 < c) ∧
    (∀ x ∈ w.watchers, a + 3 < x.monitorQuitChannel ∧ a + 3 < x.monitorChannel)
  log : w.doSendLog = []

/-- A request that subscribes under the name of `m`. -/
def Signal.subscribes (m : PidRef) : Signal → Bool
  | .monitor x => x.String = m.String
  | _ => false

/-- The `DownMessage`s that watchers have routed to `m` through `doSend`. -/
def downMessagesTo (w : World) (m : PidRef) : List (PidRef × Message) :=
  w.doSendLog.filter (fun o => o.1 = m)

/-- The world of the worker satisfies the invariant and its pid is `r`. -/
def Worker.Good (r : PidRef) (k : Worker) : Prop :=
  MonInv k.world ∧ k.world.pid.ref = r

/-- No entry of `pid.scheduled` carries the name of `m`. -/
def Unsubscribed (w : World) (m : PidRef) : Prop :=
  ∀ e ∈ w.pid.scheduled, e.1 ≠ m.String

/-- The worker `startActor` returns for the actor `p` of the tests, spawned
as pid `p1` on machine `m1` with channels `0 .. 3`. -/
def startedTarget : Worker :=
  { world := createPid "m1" [] MapOrder.stored [] "p1" 0
    ctx := { self := ⟨"m1", "p1"⟩, deferred := [] }
    status := .running
    handled := []
    trace := [.info "starting actor"] }

/-! ## Theorems -/

theorem actionNames_append (a b : List Event) :
    actionNames (a ++ b) = actionNames a ++ actionNames b := by
  induction a with
  | nil => rfl
  | cons e rest ih => cases e <;> simp [actionNames, ih]

theorem actionNames_execSteps (c : Context) (body : List Step) :
    actionNames (execSteps c body).1 = [] := by
  induction body with
  | nil => rfl
  | cons s rest ih => cases s <;> simp [execSteps, actionNames, ih]

theorem cleanup_not_mem_execSteps (c : Context) (body : List Step) :
    Event.cleanup ∉ (execSteps c body).1 := by
  induction body with
  | nil => simp [execSteps]
  | cons s rest ih => cases s <;> simp [execSteps, ih]

theorem actionNames_runDeferred (c : Context) (ds : List Action) :
    actionNames (runDeferred c ds) = ds.map Action.name := by
  induction ds with
  | nil => rfl
  | cons a rest ih =>
    simp [runDeferred, runAction, actionNames_append, actionNames, actionNames_execSteps, ih]

theorem cleanup_not_mem_runDeferred (c : Context) (ds : List Action) :
    Event.cleanup ∉ runDeferred c ds := by
  induction ds with
  | nil => simp [runDeferred]
  | cons a rest ih =>
    simp [runDeferred, runAction, cleanup_not_mem_execSteps, ih]

theorem actionNames_recoverLog (r : Option PanicValue) : actionNames (recoverLog r) = [] := by
  cases r with
  | none => rfl
  | some v => cases v <;> rfl

theorem cleanup_not_mem_recoverLog (r : Option PanicValue) : Event.cleanup ∉ recoverLog r := by
  cases r with
  | none => simp [recoverLog]
  | some v => cases v <;> simp [recoverLog]

/-- The trace, context and state left by the deferred function of the worker. -/
theorem terminate_trace (k : Worker) (r : Option PanicValue) :
    (terminate k r).trace =
        k.trace ++ recoverLog r ++
          (if k.ctx.deferred.length ≠ 0 then
            Event.debug "executing deferred actor actions" :: runDeferred k.ctx k.ctx.deferred
          else []) ++ [.cleanup] ∧
      (terminate k r).ctx.deferred = [] ∧
      (terminate k r).status ≠ .running ∧
      (terminate k r).handled = k.handled := by
  unfold terminate
  cases hc : cleanup k.world <;> by_cases hd : k.ctx.deferred.length = 0 <;>
    simp [hd] <;> simpa using hd

theorem terminatedAfter_terminate (k : Worker) (r : Option PanicValue) (pre : List Event)
    (before : List Event) (hk : k.trace = before ++ pre) (hpre : actionNames pre = [])
    (hcl : Event.cleanup ∉ pre) :
    TerminatedAfter before k.ctx.deferred (terminate k r) := by
  obtain ⟨ht, hd, hs, _⟩ := terminate_trace k r
  refine ⟨?_, ?_, hd, hs⟩
  · rw [ht, hk]
    by_cases h0 : k.ctx.deferred.length = 0
    · have : k.ctx.deferred = [] := by simpa using h0
      simp [this, actionNames_append, actionNames_recoverLog, hpre, actionNames]
    · simp [h0, actionNames_append, actionNames_recoverLog, hpre, actionNames,
        actionNames_runDeferred]
  · refine ⟨_, ht, ?_⟩
    rw [hk]
    have h1 := cleanup_not_mem_recoverLog r
    have h2 := cleanup_not_mem_runDeferred k.ctx k.ctx.deferred
    by_cases h0 : k.ctx.deferred.length = 0
    · simp [h0, List.count_eq_zero_of_not_mem, hcl, h1]
    · simp [h0, List.count_eq_zero_of_not_mem, hcl, h1, h2, List.count_cons]

theorem actionNames_execStmts (c : Context) (body : List Stmt) :
    actionNames (execStmts c body).2.1 = [] ∧ Event.cleanup ∉ (execStmts c body).2.1 := by
  induction body generalizing c with
  | nil => simp [execStmts, actionNames]
  | cons s rest ih =>
    cases s with
    | step st =>
      cases st with
      | effect tag => simpa [execStmts, actionNames] using ih c
      | quit => simp [execStmts, actionNames]
      | fail v => simp [execStmts, actionNames]
    | defer a => simpa [execStmts] using ih (c.Defer a)

/-- C4: on every termination path of a running worker (quit signal,
poison-pill, the panic of `ctx.Quit()`, any other panic of the behaviour) each
deferred action held by the context is invoked exactly once, in the order of
the list, whether or not earlier actions fail; `pid.cleanup` is called once,
after the last action; and the deferred list is empty afterwards.  The order
of the list is the order of registration: `Defer` appends. -/
theorem deferred_actions_run_on_every_termination (actor : Actor) (k : Worker)
    (hrun : k.status = .running) :
    TerminatedAfter k.trace k.ctx.deferred (workerStep actor k .quit) ∧
    (∀ c m rest, k.world.pid.messageChan = some c → bufGet k.world.buffers c = m :: rest →
      (isPoisonPill m = true →
        TerminatedAfter k.trace k.ctx.deferred (workerStep actor k .message)) ∧
      (isPoisonPill m = false →
        ∀ v, (execStmts k.ctx (actor.Run k.handled m)).2.2 = some v →
          TerminatedAfter k.trace (execStmts k.ctx (actor.Run k.handled m)).1.deferred
            (workerStep actor k .message))) ∧
    (∀ a, (k.ctx.Defer a).deferred = k.ctx.deferred ++ [a]) := by
  refine ⟨?_, ?_, fun _ => rfl⟩
  · simp only [workerStep, hrun]
    exact terminatedAfter_terminate _ none [.info "actor received quit event"] k.trace rfl rfl
      (by simp)
  · intro c m rest hc hb
    refine ⟨?_, ?_⟩
    · intro hp
      simp only [workerStep, hrun, hc, hb, handleMessage, hp, if_true]
      exact terminatedAfter_terminate _ none [.info "actor received poison pill"] k.trace rfl rfl
        (by simp)
    · intro hp v hv
      simp only [workerStep, hrun, hc, hb, handleMessage, hp, hv]
      obtain ⟨h1, h2⟩ := actionNames_execStmts k.ctx (actor.Run k.handled m)
      refine terminatedAfter_terminate _ (some v)
        ([.run m] ++ (execStmts k.ctx (actor.Run k.handled m)).2.1) k.trace ?_ ?_ ?_
      · simp
      · simp [actionNames_append, actionNames, h1]
      · simpa using h2

/-- A witness for C4: the quit signal on `sampleWorker`, whose first deferred
action fails after its first statement. -/
theorem deferred_actions_run_on_every_termination_witness :
    sampleWorker.status = .running ∧
      TerminatedAfter sampleWorker.trace sampleWorker.ctx.deferred
        (workerStep testTarget sampleWorker .quit) ∧
      (workerStep testTarget sampleWorker .quit).trace =
        [.info "actor received quit event", .debug "executing deferred actor actions",
         .action "first", .exec "a", .action "second", .exec "c", .cleanup] :=
  ⟨rfl, (deferred_actions_run_on_every_termination testTarget sampleWorker rfl).1, rfl⟩

/-- C2: on the poison pill struct value the message case terminates the
worker without invoking `Run`.  It does not treat the pointer poison pill
`&PoisonPill` (the value `TestMonitorWithPoisonPill` sends) as a poison pill:
for every actor `Run` is invoked on it, and with the actor `p` of the test the
worker stays as it was, running, with no further effect; in the scenario of
the test (spawn, monitor request, send of the pointer pill, the worker takes
it) the actor is still running and no `DownMessage` has been sent. -/
theorem pointer_poison_pill_is_passed_to_Run (actor : Actor) (k : Worker) :
    ((handleMessage actor k .PoisonPillVal).handled = k.handled ∧
      (handleMessage actor k .PoisonPillVal).status ≠ .running) ∧
    (handleMessage actor k .PoisonPillPtr).handled = k.handled ++ [.PoisonPillPtr] ∧
    Event.run .PoisonPillPtr ∈ (handleMessage actor k .PoisonPillPtr).trace ∧
    handleMessage testTarget k .PoisonPillPtr =
      { k with handled := k.handled ++ [.PoisonPillPtr]
               trace := k.trace ++ [.run .PoisonPillPtr] } ∧
    (startActor testTarget "m1" [] MapOrder.stored [] "p1" 0).map (fun k0 =>
        let k1 := workerStep testTarget k0 (.monitor sampleMonitor)
        let s := Sys.run testTarget k1.ctx k1.world.pid ⟨[.PoisonPillPtr], k1⟩ [.send, .recv]
        (s.pending, s.worker.status, s.worker.handled, s.worker.world.doSendLog)) =
      some ([], .running, [.PoisonPillPtr], []) := by
  refine ⟨?_, ?_, ?_, ?_, ?_⟩
  · simp only [handleMessage, isPoisonPill, if_true]
    exact ⟨(terminate_trace _ _).2.2.2, (terminate_trace _ _).2.2.1⟩
  · simp only [handleMessage, isPoisonPill]
    cases h : (execStmts k.ctx (actor.Run k.handled .PoisonPillPtr)).2.2 with
    | none => simp
    | some v => simp [(terminate_trace _ _).2.2.2]
  · simp only [handleMessage, isPoisonPill]
    cases h : (execStmts k.ctx (actor.Run k.handled .PoisonPillPtr)).2.2 with
    | none => simp
    | some v => simp [(terminate_trace _ _).1]
  · simp [handleMessage, isPoisonPill, testTarget, execStmts]
  · rfl

theorem execStmts_effects_then_quit (c : Context) (tags : List String) (post : List Stmt) :
    execStmts c (tags.map (fun t => Stmt.step (.effect t)) ++ .step .quit :: post) =
      (c, tags.map Event.exec, some (.str "Bye cruel world!")) := by
  induction tags with
  | nil => rfl
  | cons t rest ih => simp [execStmts, ih]

/-- C3: a behaviour that calls `ctx.Quit()` after some statements executes
none of the statements after the call and the worker terminates (deferred
actions, then cleanup), but the recovery handler takes the abnormal branch: it
logs "actor quit due to panic" with the string `Quit` panics with, and never
"actor quit".  The monitoring actor of the tests shows it on a `*DownMessage`.
The handler would log "actor quit" for a panic value of type `quitAction`. -/
theorem quit_is_logged_as_a_panic (k : Worker) (tags : List String) (post : List Stmt)
    (who : PidRef) :
    (handleMessage
        ⟨[], fun _ _ => tags.map (fun t => Stmt.step (.effect t)) ++ .step .quit :: post⟩
        k (.DownMessagePtr who)).trace =
      k.trace ++ [.run (.DownMessagePtr who)] ++ tags.map Event.exec ++
        [.warn "actor quit due to panic" (.str "Bye cruel world!")] ++
        (if k.ctx.deferred.length ≠ 0 then
          Event.debug "executing deferred actor actions" :: runDeferred k.ctx k.ctx.deferred
        else []) ++ [.cleanup] ∧
    (handleMessage testMonitor sampleWorker (.DownMessagePtr ⟨"m1", "p0"⟩)).trace =
      [.run (.DownMessagePtr ⟨"m1", "p0"⟩), .exec "assert.Equal",
       .exec "Println Actor went down!",
       .warn "actor quit due to panic" (.str "Bye cruel world!"),
       .debug "executing deferred actor actions",
       .action "first", .exec "a", .action "second", .exec "c", .cleanup] ∧
    recoverLog (some .quitAction) = [.info "actor quit"] := by
  refine ⟨?_, rfl, rfl⟩
  simp only [handleMessage, isPoisonPill, execStmts_effects_then_quit]
  simp [(terminate_trace _ _).1, recoverLog]

/-- C8, counterexample: for a pid of another machine `Context.Monitor`
returns the nil interface value, which is no `Abortable` of any kind; and for
the live local pid of `sampleWorker` it does not return as long as the worker
does not take the request. -/
theorem Monitor_remote_returns_nil :
    Context.Monitor sampleWorker.ctx "m1" remotePid true = .ok ⟨none, none⟩ ∧
    (¬ ∃ a sent, Context.Monitor sampleWorker.ctx "m1" remotePid true = .ok ⟨some a, sent⟩) ∧
    Context.Monitor sampleWorker.ctx "m1" sampleWorker.world.pid false = .error .blocked := by
  refine ⟨rfl, ?_, rfl⟩
  rintro ⟨a, sent, h⟩
  have h2 : (Except.ok ⟨none, none⟩ : Except Fault MonitorResult) = .ok ⟨some a, sent⟩ := h
  simp at h2

/-- C8, amended: for a pid of another machine `Context.Monitor` returns nil and
sends no subscribe request; for a local pid whose monitor channel is nil it
returns a `NoopAbortable` and sends no request; for a local pid with an open
monitor channel it sends the caller's own pid on that channel and, once the
worker has taken it, returns a `MonitorAbortable` bound to `(pid, self)`; it
waits as long as the worker does not take it. -/
theorem Monitor_result (c : Context) (machineId : String) (pid : Pid) :
    (pid.MachineId ≠ machineId →
      ∀ accepted, c.Monitor machineId pid accepted = .ok ⟨none, none⟩) ∧
    (pid.MachineId = machineId → pid.monitorChan = none →
      ∀ accepted, c.Monitor machineId pid accepted = .ok ⟨some .NoopAbortable, none⟩) ∧
    (∀ ch, pid.MachineId = machineId → pid.monitorChan = some ch →
      c.Monitor machineId pid true =
          .ok ⟨some (.MonitorAbortable pid.ref c.self), some (ch, c.self)⟩ ∧
        c.Monitor machineId pid false = .error .blocked) := by
  refine ⟨?_, ?_, ?_⟩
  · intro h accepted
    simp [Context.Monitor, h]
  · intro h hn accepted
    simp [Context.Monitor, h, hn]
  · intro ch h hc
    simp [Context.Monitor, h, hc]

/-- A witness for C8: the three cases at the remote pid, at a terminated local
pid and at the live pid of `sampleWorker`. -/
theorem Monitor_result_witness :
    (remotePid.MachineId ≠ "m1" ∧
      sampleWorker.ctx.Monitor "m1" remotePid true = .ok ⟨none, none⟩) ∧
    (({ remotePid with MachineId := "m1" } : Pid).MachineId = "m1" ∧
      ({ remotePid with MachineId := "m1" } : Pid).monitorChan = none ∧
      sampleWorker.ctx.Monitor "m1" { remotePid with MachineId := "m1" } true =
        .ok ⟨some .NoopAbortable, none⟩) ∧
    (sampleWorker.world.pid.MachineId = "m1" ∧ sampleWorker.world.pid.monitorChan = some 2 ∧
      sampleWorker.ctx.Monitor "m1" sampleWorker.world.pid true =
        .ok ⟨some (.MonitorAbortable ⟨"m1", "p1"⟩ ⟨"m1", "p1"⟩), some (2, ⟨"m1", "p1"⟩)⟩) :=
  ⟨⟨by decide, (Monitor_result sampleWorker.ctx "m1" remotePid).1 (by decide) true⟩,
   ⟨rfl, rfl,
    (Monitor_result sampleWorker.ctx "m1" { remotePid with MachineId := "m1" }).2.1 rfl rfl true⟩,
   ⟨rfl, rfl, ((Monitor_result sampleWorker.ctx "m1" sampleWorker.world.pid).2.2 2 rfl rfl).1⟩⟩

/-- C10, counterexample: the goroutine of `Context.Kill` on a live local pid
sends on the unbuffered quit channel while it holds the read lock `quitChanMu`;
likewise `Context.Monitor` sends on the monitor channel under `monitorChanMu`,
and `removeMonitor` sends the cancel signal under `monitorSetupMu`. -/
theorem Kill_sends_under_lock :
    blockingUnderLock 0 (KillOps "m1" sampleWorker.world.pid) = [.chanSend "pid.quitChan"] ∧
    blockingUnderLock 0 (KillOps "m1" sampleWorker.world.pid) ≠ [] ∧
    blockingUnderLock 0 (MonitorOps "m1" sampleWorker.world.pid) ≠ [] ∧
    blockingUnderLock 0 removeMonitorOps ≠ [] := by
  refine ⟨rfl, ?_, ?_, ?_⟩
  · intro h
    have h2 : [SyncOp.chanSend "pid.quitChan"] = [] := h
    simp at h2
  · intro h
    have h2 : [SyncOp.chanSend "pid.monitorChan"] = [] := h
    simp at h2
  · intro h
    have h2 : [SyncOp.chanSend "pid.monitorQuitChannels[name]"] = [] := h
    simp at h2

/-- C10, amended: `setupMonitor` performs no blocking channel operation while
it holds `monitorSetupMu`; `removeMonitor` performs one blocking send (the
cancel signal) while it holds `monitorSetupMu`; `Context.Kill` and
`Context.Monitor` perform none for a pid of another machine or a nil endpoint,
and for a local pid with an open endpoint each performs its one blocking send
while holding the read lock of that endpoint. -/
theorem blocking_operations_under_lock (machineId : String) (pid : Pid) :
    blockingUnderLock 0 setupMonitorOps = [] ∧
    blockingUnderLock 0 removeMonitorOps = [.chanSend "pid.monitorQuitChannels[name]"] ∧
    (pid.MachineId ≠ machineId →
      blockingUnderLock 0 (KillOps machineId pid) = [] ∧
      blockingUnderLock 0 (MonitorOps machineId pid) = []) ∧
    (pid.quitChan = none → blockingUnderLock 0 (KillOps machineId pid) = []) ∧
    (pid.monitorChan = none → blockingUnderLock 0 (MonitorOps machineId pid) = []) ∧
    (pid.MachineId = machineId → pid.quitChan ≠ none →
      blockingUnderLock 0 (KillOps machineId pid) = [.chanSend "pid.quitChan"]) ∧
    (pid.MachineId = machineId → pid.monitorChan ≠ none →
      blockingUnderLock 0 (MonitorOps machineId pid) = [.chanSend "pid.monitorChan"]) := by
  refine ⟨rfl, rfl, ?_, ?_, ?_, ?_, ?_⟩
  · intro h
    simp [KillOps, MonitorOps, h, blockingUnderLock]
  · intro h
    by_cases hm : pid.MachineId = machineId <;>
      simp [KillOps, hm, h, blockingUnderLock, SyncOp.blocking]
  · intro h
    by_cases hm : pid.MachineId = machineId <;>
      simp [MonitorOps, hm, h, blockingUnderLock, SyncOp.blocking]
  · intro hm h
    cases hq : pid.quitChan with
    | none => exact absurd hq h
    | some q => simp [KillOps, hm, hq, blockingUnderLock, SyncOp.blocking]
  · intro hm h
    cases hq : pid.monitorChan with
    | none => exact absurd hq h
    | some q => simp [MonitorOps, hm, hq, blockingUnderLock, SyncOp.blocking]

/-- A witness for C10: the live local pid of `sampleWorker`. -/
theorem blocking_operations_under_lock_witness :
    sampleWorker.world.pid.MachineId = "m1" ∧ sampleWorker.world.pid.monitorChan ≠ none ∧
      blockingUnderLock 0 (MonitorOps "m1" sampleWorker.world.pid) =
        [.chanSend "pid.monitorChan"] :=
  ⟨rfl, by decide,
   (blocking_operations_under_lock "m1" sampleWorker.world.pid).2.2.2.2.2.2 rfl (by decide)⟩

/-! ### Inversion of the channel operations -/

theorem chanSend_ok {w w' : World} {ch : Option Nat} (h : chanSend w ch = .ok w') :
    ∃ c ws out, ch = some c ∧ c ∉ w.closed ∧ deliver w.pid.ref w.watchers c = some (ws, out) ∧
      w' = { w with watchers := ws, doSendLog := w.doSendLog ++ out } := by
  unfold chanSend at h
  cases ch with
  | none => simp at h
  | some c =>
    by_cases hc : c ∈ w.closed
    · simp [hc] at h
    · cases hd : deliver w.pid.ref w.watchers c with
      | none => simp [hc, hd] at h
      | some r =>
        obtain ⟨ws, out⟩ := r
        simp only [hc, hd, if_false, Except.ok.injEq] at h
        exact ⟨c, ws, out, rfl, hc, hd, h.symm⟩

theorem chanClose_ok {w w' : World} {ch : Option Nat} (h : chanClose w ch = .ok w') :
    ∃ c, ch = some c ∧ c ∉ w.closed ∧
      w' = { w with closed := c :: w.closed, watchers := (wakeAll w.pid.ref w.watchers c).1,
                    doSendLog := w.doSendLog ++ (wakeAll w.pid.ref w.watchers c).2 } := by
  unfold chanClose at h
  cases ch with
  | none => simp at h
  | some c =>
    by_cases hc : c ∈ w.closed
    · simp [hc] at h
    · simp only [hc, if_false, Except.ok.injEq] at h
      exact ⟨c, rfl, hc, h.symm⟩

theorem SameFrame.refl (w : World) : SameFrame w w := by
  simp [SameFrame]

theorem SameFrame.trans {a b c : World} (h1 : SameFrame a b) (h2 : SameFrame b c) :
    SameFrame a c := by
  simp only [SameFrame] at *
  obtain ⟨a1, a2, a3, a4, a5, a6, a7, a8, a9, a10, a11, a12⟩ := h1
  obtain ⟨b1, b2, b3, b4, b5, b6, b7, b8, b9, b10, b11, b12⟩ := h2
  exact ⟨b1.trans a1, b2.trans a2, b3.trans a3, b4.trans a4, b5.trans a5, b6.trans a6,
    b7.trans a7, b8.trans a8, b9.trans a9, b10.trans a10, b11.trans a11, b12.trans a12⟩

theorem chanSend_frame {w w' : World} {ch : Option Nat} (h : chanSend w ch = .ok w') :
    SameFrame w w' ∧ w'.pid = w.pid ∧ w'.closed = w.closed := by
  obtain ⟨c, ws, out, _, _, _, rfl⟩ := chanSend_ok h
  simp [SameFrame]

theorem chanClose_frame {w w' : World} {ch : Option Nat} (h : chanClose w ch = .ok w') :
    SameFrame w w' ∧ w'.pid = w.pid := by
  obtain ⟨c, _, _, rfl⟩ := chanClose_ok h
  simp [SameFrame]

theorem closeEndpoint_ok {w w' : World} {mu : Mutex} {ch : Option Nat}
    (h : closeEndpoint w mu ch = .ok w') :
    mu ∉ w.blocked.map Sender.mutex ∧ chanClose w ch = .ok w' := by
  unfold closeEndpoint at h
  by_cases hm : mu ∈ w.blocked.map Sender.mutex
  · simp [hm] at h
  · simp only [hm, if_false] at h
    exact ⟨hm, h⟩

theorem closeEndpoint_free {w : World} {mu : Mutex} (ch : Option Nat)
    (h : mu ∉ w.blocked.map Sender.mutex) : closeEndpoint w mu ch = chanClose w ch := by
  simp only [closeEndpoint, h, if_false]

theorem closeEndpoint_held {w : World} {mu : Mutex} (ch : Option Nat)
    (h : mu ∈ w.blocked.map Sender.mutex) : closeEndpoint w mu ch = .error .blocked := by
  simp only [closeEndpoint, h, if_true]

theorem closeEndpoint_frame {w w' : World} {mu : Mutex} {ch : Option Nat}
    (h : closeEndpoint w mu ch = .ok w') : SameFrame w w' ∧ w'.pid = w.pid :=
  chanClose_frame (closeEndpoint_ok h).2

theorem drainScheduled_frame (l : List (String × Nat)) :
    ∀ {w w' : World}, drainScheduled w l = .ok w' →
      SameFrame w w' ∧ w'.pid.monitorQuitChannels = w.pid.monitorQuitChannels := by
  induction l with
  | nil =>
    intro w w' h
    simp only [drainScheduled, Except.ok.injEq] at h
    subst h
    exact ⟨SameFrame.refl _, rfl⟩
  | cons e rest ih =>
    intro w w' h
    obtain ⟨n, ch⟩ := e
    simp only [drainScheduled] at h
    cases h1 : chanSend w (some ch) with
    | error f => simp [h1] at h
    | ok w1 =>
      cases h2 : chanClose w1 (some ch) with
      | error f => simp [h1, h2] at h
      | ok w2 =>
        simp only [h1, h2] at h
        obtain ⟨f1, p1, _⟩ := chanSend_frame h1
        obtain ⟨f2, p2⟩ := chanClose_frame h2
        obtain ⟨f3, q3⟩ := ih h
        refine ⟨(f1.trans f2).trans (SameFrame.trans ?_ f3), ?_⟩
        · simp [SameFrame]
        · rw [q3]
          simp [p2, p1]

theorem closeQuitChannels_frame (l : List (String × Nat)) :
    ∀ {w w' : World}, closeQuitChannels w l = .ok w' →
      SameFrame w w' ∧ w'.pid.scheduled = w.pid.scheduled := by
  induction l with
  | nil =>
    intro w w' h
    simp only [closeQuitChannels, Except.ok.injEq] at h
    subst h
    exact ⟨SameFrame.refl _, rfl⟩
  | cons e rest ih =>
    intro w w' h
    obtain ⟨n, c⟩ := e
    simp only [closeQuitChannels] at h
    cases h1 : chanClose w (some c) with
    | error f => simp [h1] at h
    | ok w1 =>
      simp only [h1] at h
      obtain ⟨f1, p1⟩ := chanClose_frame h1
      obtain ⟨f3, q3⟩ := ih h
      refine ⟨f1.trans (SameFrame.trans ?_ f3), ?_⟩
      · simp [SameFrame, Pid.deleteQuit]
      · rw [q3]
        simp [Pid.deleteQuit, p1]

/-- What `cleanup` leaves of the identity of the pid, the registry and the
buffers, whenever it completes. -/
theorem cleanup_frame {w w' : World} (h : cleanup w = .ok w') :
    w'.machineId = w.machineId ∧ w'.machines = w.machines ∧
    w'.registry = deletePid w.registry w.pid.Id ∧ w'.buffers = w.buffers ∧
    w'.pid.MachineId = w.pid.MachineId ∧ w'.pid.Id = w.pid.Id ∧
    w'.pid.quitChan = none ∧ w'.pid.messageChan = none ∧
    w'.pid.monitorChan = none ∧ w'.pid.demonitorChan = none ∧
    w'.pid.monitorQuitChannels = none := by
  unfold cleanup at h
  simp only at h
  split at h
  · simp at h
  · rename_i w1 h1
    split at h
    · simp at h
    · rename_i w2 h2
      split at h
      · simp at h
      · rename_i w3 h3
        split at h
        · simp at h
        · rename_i w4 h4
          split at h
          · simp at h
          · rename_i w5 h5
            split at h
            · simp at h
            · rename_i w6 h6
              simp only [Except.ok.injEq] at h
              subst h
              obtain ⟨f1, _⟩ := closeEndpoint_frame h1
              obtain ⟨f2, _⟩ := closeEndpoint_frame h2
              obtain ⟨f3, _⟩ := closeEndpoint_frame h3
              obtain ⟨f4, _⟩ := closeEndpoint_frame h4
              obtain ⟨f5, _⟩ := drainScheduled_frame _ h5
              obtain ⟨f6, _⟩ := closeQuitChannels_frame _ h6
              simp only [SameFrame] at f1 f2 f3 f4 f5 f6
              simp_all

/-- When `cleanup` completes, no sender was waiting with a read lock. -/
theorem cleanup_ok_free {w w' : World} (h : cleanup w = .ok w') : w.blocked = [] := by
  unfold cleanup at h
  simp only at h
  split at h
  · simp at h
  · rename_i w1 h1
    split at h
    · simp at h
    · rename_i w2 h2
      split at h
      · simp at h
      · rename_i w3 h3
        obtain ⟨m1, _⟩ := closeEndpoint_ok h1
        obtain ⟨f1, _⟩ := closeEndpoint_frame h1
        obtain ⟨f2, _⟩ := closeEndpoint_frame h2
        obtain ⟨m3, _⟩ := closeEndpoint_ok h3
        have b1 : w1.blocked = w.blocked := f1.2.2.2.2.2.2.2.2.2.2.2
        have b2 : w2.blocked = w.blocked := f2.2.2.2.2.2.2.2.2.2.2.2.trans b1
        simp only at m1 m3
        rw [b2] at m3
        rw [List.eq_nil_iff_forall_not_mem]
        intro x hx
        cases x with
        | kill => exact m1 (List.mem_map.mpr ⟨.kill, hx, rfl⟩)
        | monitor p => exact m3 (List.mem_map.mpr ⟨.monitor p, hx, rfl⟩)

theorem getByPidId_deletePid (registry : List Pid) (id : String) :
    getByPidId (deletePid registry id) id = none := by
  simp [getByPidId, deletePid, List.find?_eq_none]

/-- C6: when `cleanup` has completed on a local pid, its four endpoints are
nil and its id is no longer in the registry; then for every message, a poison
pill included, `doSend` to that pid returns to its caller with the world
unchanged: nothing is enqueued into any mailbox or outbound channel, and no
failure reaches the caller. -/
theorem doSend_after_cleanup_is_a_no_op (w w' : World) (hc : cleanup w = .ok w')
    (hlocal : w.pid.MachineId = w.machineId) :
    w'.pid.quitChan = none ∧ w'.pid.messageChan = none ∧
    w'.pid.monitorChan = none ∧ w'.pid.demonitorChan = none ∧
    getByPidId w'.registry w'.pid.Id = none ∧
    ∀ message, doSend w' w'.pid message = .ok w' := by
  obtain ⟨h1, _, h3, _, h5, h6, h7, h8, h9, h10, _⟩ := cleanup_frame hc
  have hreg : getByPidId w'.registry w'.pid.Id = none := by
    rw [h3, h6]
    exact getByPidId_deletePid _ _
  refine ⟨h7, h8, h9, h10, hreg, ?_⟩
  intro message
  have hm : w'.pid.MachineId = w'.machineId := by rw [h5, h1, hlocal]
  simp [doSend, hm, h8, hreg]

/-- A witness for C6: the pid of `sampleWorker` after `cleanup`, sent a
poison pill. -/
theorem doSend_after_cleanup_is_a_no_op_witness :
    ∃ w', cleanup sampleWorker.world = .ok w' ∧
      sampleWorker.world.pid.MachineId = sampleWorker.world.machineId ∧
      doSend w' w'.pid .PoisonPillVal = .ok w' ∧ doSend w' w'.pid .PoisonPillPtr = .ok w' :=
  ⟨{ sampleWorker.world with
      registry := []
      pid := ⟨"m1", "p1", none, none, none, none, [], none⟩
      closed := [3, 2, 1, 0] }, rfl, rfl,
    (doSend_after_cleanup_is_a_no_op sampleWorker.world _ rfl rfl).2.2.2.2.2 _,
    (doSend_after_cleanup_is_a_no_op sampleWorker.world _ rfl rfl).2.2.2.2.2 _⟩

/-! ### One caller, one recipient -/

theorem bufGet_bufSet (b : List (Nat × List Message)) (c : Nat) (ms : List Message) :
    bufGet (bufSet b c ms) c = ms := by
  simp [bufGet, bufSet]

theorem doSend_routes {w : World} {toPid : Pid} {ch : Nat} (h : RoutesTo w toPid ch)
    (message : Message) : doSend w toPid message = mailboxSend w (some ch) message := by
  obtain ⟨hm, h | ⟨hn, p, hp, hpc⟩⟩ := h
  · simp [doSend, hm, h]
  · simp [doSend, hm, hn, hp, hpc]

theorem Sys.step_send_eq (actor : Actor) (c : Context) {toPid : Pid} {ch : Nat}
    {s : Sys} (hl : LiveRecipient s.worker toPid ch) :
    (s.pending = [] → Sys.step actor c toPid s .send = s) ∧
    (∀ m rest, s.pending = m :: rest →
      ((bufGet s.worker.world.buffers ch).length < mailboxCapacity →
        Sys.step actor c toPid s .send =
          ⟨rest, { s.worker with world := { s.worker.world with
            buffers := bufSet s.worker.world.buffers ch
              (bufGet s.worker.world.buffers ch ++ [m]) } }⟩) ∧
      (¬ (bufGet s.worker.world.buffers ch).length < mailboxCapacity →
        Sys.step actor c toPid s .send = s)) := by
  obtain ⟨hrun, hch, hopen, hto⟩ := hl
  refine ⟨?_, ?_⟩
  · intro hp
    simp [Sys.step, hp]
  · intro m rest hp
    refine ⟨?_, ?_⟩
    · intro hlen
      simp [Sys.step, hp, Context.Send, doSend_routes hto, mailboxSend, hopen, hlen]
    · intro hlen
      simp [Sys.step, hp, Context.Send, doSend_routes hto, mailboxSend, hopen, hlen]

theorem Sys.step_send_live (actor : Actor) (c : Context) {toPid : Pid} {ch : Nat}
    {s : Sys} (hl : LiveRecipient s.worker toPid ch) :
    LiveRecipient (Sys.step actor c toPid s .send).worker toPid ch ∧
    (Sys.step actor c toPid s .send).flow ch = s.flow ch ∧
    (Sys.step actor c toPid s .send).worker.handled = s.worker.handled := by
  obtain ⟨h0, h1⟩ := Sys.step_send_eq actor c hl
  cases hp : s.pending with
  | nil =>
    rw [h0 hp]
    exact ⟨hl, rfl, rfl⟩
  | cons m rest =>
    obtain ⟨ha, hb⟩ := h1 m rest hp
    by_cases hlen : (bufGet s.worker.world.buffers ch).length < mailboxCapacity
    · rw [ha hlen]
      obtain ⟨hrun, hch, hopen, hto⟩ := hl
      refine ⟨⟨hrun, hch, hopen, hto⟩, ?_, rfl⟩
      simp [Sys.flow, bufGet_bufSet, hp]
    · rw [hb hlen]
      exact ⟨hl, rfl, rfl⟩

theorem Sys.step_recv_live {actor : Actor} {c : Context} {toPid : Pid} {ch : Nat}
    {s : Sys} (hl : LiveRecipient s.worker toPid ch)
    (hrun' : (Sys.step actor c toPid s .recv).worker.status = .running) :
    LiveRecipient (Sys.step actor c toPid s .recv).worker toPid ch ∧
    (Sys.step actor c toPid s .recv).flow ch = s.flow ch := by
  obtain ⟨hrun, hch, hopen, hto⟩ := hl
  cases hb : bufGet s.worker.world.buffers ch with
  | nil =>
    have he : Sys.step actor c toPid s .recv = s := by
      simp [Sys.step, workerStep, hrun, hch, hb]
    rw [he]
    exact ⟨⟨hrun, hch, hopen, hto⟩, rfl⟩
  | cons m rest =>
    have he : Sys.step actor c toPid s .recv =
        ⟨s.pending, handleMessage actor
          ({ s.worker with world := { s.worker.world with
            buffers := bufSet s.worker.world.buffers ch rest } }) m⟩ := by
      simp [Sys.step, workerStep, hrun, hch, hb]
    rw [he] at hrun' ⊢
    by_cases hp : isPoisonPill m = true
    · simp only [handleMessage, hp, if_true] at hrun'
      exact absurd hrun' (terminate_trace _ _).2.2.1
    · cases hr : (execStmts s.worker.ctx (actor.Run s.worker.handled m)).2.2 with
      | some v =>
        simp only [handleMessage, hp, hr] at hrun'
        exact absurd hrun' (terminate_trace _ _).2.2.1
      | none =>
        have hh : handleMessage actor
            ({ s.worker with world := { s.worker.world with
              buffers := bufSet s.worker.world.buffers ch rest } }) m =
            { s.worker with
              world := { s.worker.world with buffers := bufSet s.worker.world.buffers ch rest }
              ctx := (execStmts s.worker.ctx (actor.Run s.worker.handled m)).1
              handled := s.worker.handled ++ [m]
              trace := s.worker.trace ++ [.run m] ++
                (execStmts s.worker.ctx (actor.Run s.worker.handled m)).2.1 } := by
          simp [handleMessage, hp, hr]
        rw [hh]
        refine ⟨⟨hrun, hch, hopen, hto⟩, ?_⟩
        simp [Sys.flow, bufGet_bufSet, hb]

theorem workerStep_not_running {actor : Actor} {k : Worker} (h : k.status ≠ .running)
    (s : Signal) : workerStep actor k s = k := by
  unfold workerStep
  cases hs : k.status with
  | running => exact absurd hs h
  | terminated => rfl
  | stuck f => rfl

theorem Sys.step_stays_stopped {actor : Actor} {c : Context} {toPid : Pid} {s : Sys}
    (h : s.worker.status ≠ .running) (x : Sched) :
    (Sys.step actor c toPid s x).worker.status ≠ .running := by
  cases x with
  | send =>
    simp only [Sys.step]
    cases s.pending with
    | nil => exact h
    | cons m rest =>
      simp only
      cases c.Send s.worker.world toPid m <;> exact h
  | recv =>
    simp only [Sys.step, workerStep_not_running h]
    exact h

theorem Sys.run_stays_stopped {actor : Actor} {c : Context} {toPid : Pid}
    (sched : List Sched) : ∀ {s : Sys}, s.worker.status ≠ .running →
      (Sys.run actor c toPid s sched).worker.status ≠ .running := by
  induction sched with
  | nil => intro s h; exact h
  | cons x rest ih => intro s h; exact ih (Sys.step_stays_stopped h x)

theorem Sys.run_flow {actor : Actor} {c : Context} {toPid : Pid} {ch : Nat}
    (sched : List Sched) : ∀ {s : Sys}, LiveRecipient s.worker toPid ch →
      (Sys.run actor c toPid s sched).worker.status = .running →
      (Sys.run actor c toPid s sched).flow ch = s.flow ch := by
  induction sched with
  | nil => intro s _ _; rfl
  | cons x rest ih =>
    intro s hl hrun
    simp only [Sys.run] at hrun ⊢
    by_cases hs : (Sys.step actor c toPid s x).worker.status = .running
    · cases x with
      | send =>
        obtain ⟨hl', hf, _⟩ := Sys.step_send_live actor c hl
        rw [ih hl' hrun, hf]
      | recv =>
        obtain ⟨hl', hf⟩ := Sys.step_recv_live hl hs
        rw [ih hl' hrun, hf]
    · exact absurd hrun (Sys.run_stays_stopped rest hs)

theorem Sys.run_sends {actor : Actor} {c : Context} {toPid : Pid} {ch : Nat}
    (msgs : List Message) : ∀ {k : Worker}, LiveRecipient k toPid ch →
      (bufGet k.world.buffers ch).length + msgs.length ≤ mailboxCapacity →
      (Sys.run actor c toPid ⟨msgs, k⟩ (List.replicate msgs.length .send)).pending = [] ∧
      bufGet (Sys.run actor c toPid ⟨msgs, k⟩
          (List.replicate msgs.length .send)).worker.world.buffers ch =
        bufGet k.world.buffers ch ++ msgs ∧
      (Sys.run actor c toPid ⟨msgs, k⟩
          (List.replicate msgs.length .send)).worker.handled = k.handled := by
  induction msgs with
  | nil => intro k _ _; simp [Sys.run]
  | cons m rest ih =>
    intro k hl hcap
    simp only [List.length_cons, List.replicate_succ, Sys.run]
    have hl0 : LiveRecipient (Sys.mk (m :: rest) k).worker toPid ch := hl
    have hlt : (bufGet k.world.buffers ch).length < mailboxCapacity := by
      simp only [List.length_cons] at hcap
      omega
    have hs := ((Sys.step_send_eq actor c hl0).2 m rest rfl).1 hlt
    rw [hs]
    obtain ⟨hrun, hch, hopen, hto⟩ := hl
    have hl' : LiveRecipient { k with world := { k.world with
        buffers := bufSet k.world.buffers ch (bufGet k.world.buffers ch ++ [m]) } } toPid ch :=
      ⟨hrun, hch, hopen, hto⟩
    have hcap' : (bufGet ({ k with world := { k.world with
        buffers := bufSet k.world.buffers ch (bufGet k.world.buffers ch ++ [m]) } } :
          Worker).world.buffers ch).length + rest.length ≤ mailboxCapacity := by
      simp only [bufGet_bufSet, List.length_append, List.length_cons, List.length_nil] at hcap ⊢
      omega
    obtain ⟨r1, r2, r3⟩ := ih hl' hcap'
    refine ⟨r1, ?_, r3⟩
    rw [r2]
    simp [bufGet_bufSet]

/-- C7: one caller sends `msgs` through `Context.Send` to a live local
recipient whose mailbox has room for them.  Under every interleaving of the
sends with the recipient's worker, as long as the recipient has not terminated,
the messages `Run` has been invoked on, followed by those waiting in the mailbox
and those not yet sent, are the earlier ones followed by `msgs` in send order;
so once nothing is waiting or unsent, `Run` has been invoked on exactly `msgs`,
in the order sent.  All the sends complete even if the recipient takes nothing. -/
theorem sends_are_handled_in_send_order (actor : Actor) (c : Context) (toPid : Pid)
    (k : Worker) (ch : Nat) (msgs : List Message)
    (hlive : LiveRecipient k toPid ch)
    (hcap : (bufGet k.world.buffers ch).length + msgs.length ≤ mailboxCapacity) :
    (∀ sched, (Sys.run actor c toPid ⟨msgs, k⟩ sched).worker.status = .running →
      (Sys.run actor c toPid ⟨msgs, k⟩ sched).worker.handled ++
          bufGet (Sys.run actor c toPid ⟨msgs, k⟩ sched).worker.world.buffers ch ++
          (Sys.run actor c toPid ⟨msgs, k⟩ sched).pending =
        k.handled ++ bufGet k.world.buffers ch ++ msgs) ∧
    (∀ sched, (Sys.run actor c toPid ⟨msgs, k⟩ sched).worker.status = .running →
      (Sys.run actor c toPid ⟨msgs, k⟩ sched).pending = [] →
      bufGet (Sys.run actor c toPid ⟨msgs, k⟩ sched).worker.world.buffers ch = [] →
      bufGet k.world.buffers ch = [] →
      (Sys.run actor c toPid ⟨msgs, k⟩ sched).worker.handled = k.handled ++ msgs) ∧
    (Sys.run actor c toPid ⟨msgs, k⟩ (List.replicate msgs.length .send)).pending = [] := by
  have hflow : ∀ sched, (Sys.run actor c toPid ⟨msgs, k⟩ sched).worker.status = .running →
      (Sys.run actor c toPid ⟨msgs, k⟩ sched).worker.handled ++
          bufGet (Sys.run actor c toPid ⟨msgs, k⟩ sched).worker.world.buffers ch ++
          (Sys.run actor c toPid ⟨msgs, k⟩ sched).pending =
        k.handled ++ bufGet k.world.buffers ch ++ msgs := by
    intro sched hrun
    have hl0 : LiveRecipient (Sys.mk msgs k).worker toPid ch := hlive
    exact Sys.run_flow sched hl0 hrun
  refine ⟨hflow, ?_, (Sys.run_sends msgs hlive hcap).1⟩
  intro sched hrun hp hb hb0
  have h := hflow sched hrun
  rw [hp, hb, hb0] at h
  simpa using h

/-- A witness for C7: three messages to the live pid of `sampleWorker`, the
second a pointer poison pill, sent and taken under an interleaved schedule. -/
theorem sends_are_handled_in_send_order_witness :
    LiveRecipient sampleWorker sampleWorker.world.pid 1 ∧
    (bufGet sampleWorker.world.buffers 1).length +
        [Message.GenericMessagePtr "1", .PoisonPillPtr, .GenericMessagePtr "2"].length ≤
      mailboxCapacity ∧
    (Sys.run testTarget sampleWorker.ctx sampleWorker.world.pid
        ⟨[.GenericMessagePtr "1", .PoisonPillPtr, .GenericMessagePtr "2"], sampleWorker⟩
        [.send, .recv, .send, .send, .recv, .recv]).worker.handled =
      sampleWorker.handled ++ [.GenericMessagePtr "1", .PoisonPillPtr, .GenericMessagePtr "2"] :=
  ⟨⟨rfl, rfl, by decide, rfl, Or.inl rfl⟩, by decide,
    (sends_are_handled_in_send_order testTarget sampleWorker.ctx sampleWorker.world.pid
      sampleWorker 1 [.GenericMessagePtr "1", .PoisonPillPtr, .GenericMessagePtr "2"]
      ⟨rfl, rfl, by decide, rfl, Or.inl rfl⟩ (by decide)).2.1
      [.send, .recv, .send, .send, .recv, .recv] rfl rfl rfl rfl⟩

/-! ### Watchers and channels -/

theorem Watcher.Apart.symm {x y : Watcher} (h : x.Apart y) : y.Apart x :=
  ⟨fun e => h.1 e.symm, fun e => h.2.2.1 e.symm, fun e => h.2.1 e.symm, fun e => h.2.2.2 e.symm⟩

theorem receive_none (who : PidRef) {x : Watcher} {c : Nat}
    (h : x.status = .waiting → x.monitorQuitChannel ≠ c ∧ x.monitorChannel ≠ c) :
    x.receive who c = none := by
  unfold Watcher.receive
  by_cases hs : x.status = .waiting
  · simp [hs, (h hs).1, (h hs).2]
  · simp [hs]

theorem receive_cancel (who : PidRef) {x : Watcher} {c : Nat}
    (hs : x.status = .waiting) (hq : x.monitorQuitChannel = c) :
    x.receive who c = some ({ x with status := .cancelled }, []) := by
  simp [Watcher.receive, hs, hq]

theorem receive_fire (who : PidRef) {x : Watcher} {c : Nat}
    (hs : x.status = .waiting) (hq : x.monitorQuitChannel ≠ c) (hf : x.monitorChannel = c) :
    x.receive who c =
      some ({ x with status := .fired }, [(x.monitor, .DownMessagePtr who)]) := by
  simp [Watcher.receive, hs, hq, hf]

theorem wakeAll_none {who : PidRef} {c : Nat} (ws : List Watcher)
    (h : ∀ x ∈ ws, x.status = .waiting → x.monitorQuitChannel ≠ c ∧ x.monitorChannel ≠ c) :
    wakeAll who ws c = (ws, []) := by
  induction ws with
  | nil => rfl
  | cons x xs ih =>
    have hx := receive_none who (h x (List.mem_cons_self _ _))
    have hxs := ih (fun y hy => h y (List.mem_cons_of_mem _ hy))
    simp [wakeAll, hx, hxs]

theorem wakeAll_out_nil {who : PidRef} {c : Nat} (ws : List Watcher)
    (h : ∀ x ∈ ws, x.monitorChannel ≠ c) : (wakeAll who ws c).2 = [] := by
  induction ws with
  | nil => rfl
  | cons x xs ih =>
    have hxs := ih (fun y hy => h y (List.mem_cons_of_mem _ hy))
    have hx := h x (List.mem_cons_self _ _)
    simp only [wakeAll]
    cases hr : x.receive who c with
    | none => simpa using hxs
    | some r =>
      simp only [hxs, List.append_nil]
      unfold Watcher.receive at hr
      by_cases hs : x.status = .waiting
      · by_cases hq : x.monitorQuitChannel = c
        · simp only [hs, hq, if_true, Option.some.injEq] at hr
          rw [← hr]
        · simp [hs, hq, hx] at hr
      · simp [hs] at hr

theorem wakeAll_mem {who : PidRef} {c : Nat} (ws : List Watcher) :
    ∀ y ∈ (wakeAll who ws c).1, ∃ x ∈ ws, y.monitorQuitChannel = x.monitorQuitChannel ∧
      y.monitorChannel = x.monitorChannel ∧ y.monitor = x.monitor := by
  induction ws with
  | nil => intro y hy; simp [wakeAll] at hy
  | cons x xs ih =>
    intro y hy
    simp only [wakeAll] at hy
    cases hr : x.receive who c with
    | none =>
      simp only [hr, List.mem_cons] at hy
      rcases hy with rfl | hy
      · exact ⟨y, List.mem_cons_self _ _, rfl, rfl, rfl⟩
      · obtain ⟨z, hz, h⟩ := ih y hy
        exact ⟨z, List.mem_cons_of_mem _ hz, h⟩
    | some r =>
      simp only [hr, List.mem_cons] at hy
      rcases hy with rfl | hy
      · refine ⟨x, List.mem_cons_self _ _, ?_⟩
        unfold Watcher.receive at hr
        by_cases hs : x.status = .waiting
        · by_cases hq : x.monitorQuitChannel = c
          · simp only [hs, hq, if_true, Option.some.injEq] at hr
            rw [← hr]
            exact ⟨hq.symm, rfl, rfl⟩
          · by_cases hf : x.monitorChannel = c
            · simp only [hs, hq, hf, if_true, if_false, Option.some.injEq] at hr
              rw [← hr]
              exact ⟨rfl, hf.symm, rfl⟩
            · simp [hs, hq, hf] at hr
        · simp [hs] at hr
      · obtain ⟨z, hz, h⟩ := ih y hy
        exact ⟨z, List.mem_cons_of_mem _ hz, h⟩

theorem map_cancelOn_self {c : Nat} (ws : List Watcher)
    (h : ∀ x ∈ ws, x.monitorQuitChannel ≠ c) : ws.map (cancelOn c) = ws := by
  induction ws with
  | nil => rfl
  | cons x xs ih =>
    simp [cancelOn, h x (List.mem_cons_self _ _),
      ih (fun y hy => h y (List.mem_cons_of_mem _ hy))]

theorem map_fireOn_self {c : Nat} (ws : List Watcher)
    (h : ∀ x ∈ ws, x.monitorChannel ≠ c) : ws.map (fireOn c) = ws := by
  induction ws with
  | nil => rfl
  | cons x xs ih =>
    simp [fireOn, h x (List.mem_cons_self _ _),
      ih (fun y hy => h y (List.mem_cons_of_mem _ hy))]

theorem deliver_cancel {who : PidRef} {c : Nat} (ws : List Watcher)
    (hp : ws.Pairwise Watcher.Apart) (x : Watcher) (hx : x ∈ ws)
    (hs : x.status = .waiting) (hq : x.monitorQuitChannel = c) :
    deliver who ws c = some (ws.map (cancelOn c), []) := by
  induction ws with
  | nil => simp at hx
  | cons y ys ih =>
    rw [List.pairwise_cons] at hp
    rcases List.mem_cons.mp hx with rfl | hxs
    · have hr := receive_cancel who hs hq
      have hys : ys.map (cancelOn c) = ys :=
        map_cancelOn_self ys (fun z hz e => (hp.1 z hz).1 (hq.trans e.symm))
      simp [deliver, hr, hys, cancelOn, hq]
    · have hy : y.receive who c = none :=
        receive_none who (fun _ =>
          ⟨fun e => (hp.1 x hxs).1 (e.trans hq.symm), fun e => (hp.1 x hxs).2.2.1 (e.trans hq.symm)⟩)
      have hyq : y.monitorQuitChannel ≠ c := fun e => (hp.1 x hxs).1 (e.trans hq.symm)
      simp [deliver, hy, ih hp.2 hxs, cancelOn, hyq]

theorem deliver_fire {who : PidRef} {c : Nat} (ws : List Watcher)
    (hp : ws.Pairwise Watcher.Apart) (x : Watcher) (hx : x ∈ ws)
    (hs : x.status = .waiting) (hq : x.monitorQuitChannel ≠ c) (hf : x.monitorChannel = c) :
    deliver who ws c = some (ws.map (fireOn c), [(x.monitor, .DownMessagePtr who)]) := by
  induction ws with
  | nil => simp at hx
  | cons y ys ih =>
    rw [List.pairwise_cons] at hp
    rcases List.mem_cons.mp hx with rfl | hxs
    · have hr := receive_fire who hs hq hf
      have hys : ys.map (fireOn c) = ys :=
        map_fireOn_self ys (fun z hz e => (hp.1 z hz).2.2.2 (hf.trans e.symm))
      simp [deliver, hr, hys, fireOn, hf]
    · have hy : y.receive who c = none :=
        receive_none who (fun _ =>
          ⟨fun e => (hp.1 x hxs).2.1 (e.trans hf.symm),
           fun e => (hp.1 x hxs).2.2.2 (e.trans hf.symm)⟩)
      have hyf : y.monitorChannel ≠ c := fun e => (hp.1 x hxs).2.2.2 (e.trans hf.symm)
      simp [deliver, hy, ih hp.2 hxs, fireOn, hyf]

theorem deliver_none {who : PidRef} {c : Nat} (ws : List Watcher)
    (h : ∀ x ∈ ws, x.status = .waiting → x.monitorQuitChannel ≠ c ∧ x.monitorChannel ≠ c) :
    deliver who ws c = none := by
  induction ws with
  | nil => rfl
  | cons x xs ih =>
    have hx := receive_none who (h x (List.mem_cons_self _ _))
    have hxs := ih (fun y hy => h y (List.mem_cons_of_mem _ hy))
    simp [deliver, hx, hxs]

/-- Two watchers of a list with disjoint channels that share a channel are
the same watcher. -/
theorem eq_of_shared_channel {ws : List Watcher} (hp : ws.Pairwise Watcher.Apart)
    {x y : Watcher} (hx : x ∈ ws) (hy : y ∈ ws)
    (h : x.monitorQuitChannel = y.monitorQuitChannel ∨ x.monitorQuitChannel = y.monitorChannel ∨
      x.monitorChannel = y.monitorQuitChannel ∨ x.monitorChannel = y.monitorChannel) :
    x = y := by
  by_contra hne
  have ha : x.Apart y :=
    hp.forall (fun _ _ hab => Watcher.Apart.symm hab) hx hy hne
  rcases h with h | h | h | h
  · exact ha.1 h
  · exact ha.2.1 h
  · exact ha.2.2.1 h
  · exact ha.2.2.2 h

/-! ### Status changes keep the channel discipline -/

theorem fireOn_fields (c : Nat) (x : Watcher) :
    (fireOn c x).monitorQuitChannel = x.monitorQuitChannel ∧
    (fireOn c x).monitorChannel = x.monitorChannel ∧ (fireOn c x).monitor = x.monitor := by
  unfold fireOn
  split <;> exact ⟨rfl, rfl, rfl⟩

theorem cancelOn_fields (c : Nat) (x : Watcher) :
    (cancelOn c x).monitorQuitChannel = x.monitorQuitChannel ∧
    (cancelOn c x).monitorChannel = x.monitorChannel ∧ (cancelOn c x).monitor = x.monitor := by
  unfold cancelOn
  split <;> exact ⟨rfl, rfl, rfl⟩

theorem fireOn_waiting {c : Nat} {x : Watcher} (h : (fireOn c x).status = .waiting) :
    x.monitorChannel ≠ c ∧ fireOn c x = x := by
  unfold fireOn at h ⊢
  by_cases hf : x.monitorChannel = c
  · simp [hf] at h
  · simp [hf]

theorem cancelOn_waiting {c : Nat} {x : Watcher} (h : (cancelOn c x).status = .waiting) :
    x.monitorQuitChannel ≠ c ∧ cancelOn c x = x := by
  unfold cancelOn at h ⊢
  by_cases hf : x.monitorQuitChannel = c
  · simp [hf] at h
  · simp [hf]

theorem pairwise_apart_map {g : Watcher → Watcher} {ws : List Watcher}
    (hg : ∀ x, (g x).monitorQuitChannel = x.monitorQuitChannel ∧
      (g x).monitorChannel = x.monitorChannel ∧ (g x).monitor = x.monitor)
    (hp : ws.Pairwise Watcher.Apart) : (ws.map g).Pairwise Watcher.Apart := by
  rw [List.pairwise_map]
  refine hp.imp ?_
  intro a b hab
  unfold Watcher.Apart at hab ⊢
  rw [(hg a).1, (hg a).2.1, (hg b).1, (hg b).2.1]
  exact hab

theorem ownerMonitor_eq {ws : List Watcher} (hp : ws.Pairwise Watcher.Apart)
    {x : Watcher} (hx : x ∈ ws) {c : Nat} (hf : x.monitorChannel = c) :
    ownerMonitor ws c = x.monitor := by
  unfold ownerMonitor
  cases hfind : ws.find? (fun y => y.monitorChannel = c) with
  | none =>
    rw [List.find?_eq_none] at hfind
    exact absurd (by simpa using hf) (hfind x hx)
  | some y =>
    have hy : y ∈ ws := List.mem_of_find?_eq_some hfind
    have hyc : y.monitorChannel = c := by simpa using List.find?_some hfind
    have : x = y := eq_of_shared_channel hp hx hy (Or.inr (Or.inr (Or.inr (hf.trans hyc.symm))))
    simp [this]

theorem ownerMonitor_map {g : Watcher → Watcher} (ws : List Watcher)
    (hg : ∀ x, (g x).monitorQuitChannel = x.monitorQuitChannel ∧
      (g x).monitorChannel = x.monitorChannel ∧ (g x).monitor = x.monitor) (c : Nat) :
    ownerMonitor (ws.map g) c = ownerMonitor ws c := by
  unfold ownerMonitor
  induction ws with
  | nil => rfl
  | cons x xs ih =>
    simp only [List.map_cons, List.find?_cons, (hg x).2.1]
    by_cases hx : x.monitorChannel = c
    · simp [hx, (hg x).2.2]
    · simpa [hx] using ih

/-! ### The channel operations under the channel discipline -/

theorem chanSend_fire {w : World} (hi : ChanInv w) {x : Watcher} (hx : x ∈ w.watchers)
    (hs : x.status = .waiting) {c : Nat} (hf : x.monitorChannel = c) :
    chanSend w (some c) =
      .ok { w with watchers := w.watchers.map (fireOn c)
                   doSendLog := w.doSendLog ++ [(x.monitor, .DownMessagePtr w.pid.ref)] } := by
  have hc : c ∉ w.closed := hf ▸ (hi.open_ x hx hs).2
  have hq : x.monitorQuitChannel ≠ c := hf ▸ hi.own x hx
  simp [chanSend, hc, deliver_fire w.watchers hi.apart x hx hs hq hf]

theorem chanSend_cancel {w : World} (hi : ChanInv w) {x : Watcher} (hx : x ∈ w.watchers)
    (hs : x.status = .waiting) {c : Nat} (hq : x.monitorQuitChannel = c) :
    chanSend w (some c) = .ok { w with watchers := w.watchers.map (cancelOn c) } := by
  have hc : c ∉ w.closed := hq ▸ (hi.open_ x hx hs).1
  simp [chanSend, hc, deliver_cancel w.watchers hi.apart x hx hs hq]

theorem chanClose_quiet {w : World} {c : Nat} (hc : c ∉ w.closed)
    (h : ∀ x ∈ w.watchers, x.status = .waiting →
      x.monitorQuitChannel ≠ c ∧ x.monitorChannel ≠ c) :
    chanClose w (some c) = .ok { w with closed := c :: w.closed } := by
  simp [chanClose, hc, wakeAll_none w.watchers h]

/-- After the watcher of fire channel `c` has fired and `c` is closed, the
channel discipline still holds. -/
theorem ChanInv.after_fire {w : World} (hi : ChanInv w) {x : Watcher} (hx : x ∈ w.watchers)
    {c : Nat} (hf : x.monitorChannel = c) (p : Pid) (log : List (PidRef × Message)) :
    ChanInv { w with watchers := w.watchers.map (fireOn c), closed := c :: w.closed,
                     pid := p, doSendLog := log } := by
  refine ⟨pairwise_apart_map (fireOn_fields c) hi.apart, ?_, ?_⟩
  · intro y hy
    obtain ⟨z, hz, rfl⟩ := List.mem_map.mp hy
    rw [(fireOn_fields c z).1, (fireOn_fields c z).2.1]
    exact hi.own z hz
  · intro y hy hw
    obtain ⟨z, hz, rfl⟩ := List.mem_map.mp hy
    obtain ⟨hzc, hzz⟩ := fireOn_waiting hw
    rw [hzz] at hw ⊢
    obtain ⟨o1, o2⟩ := hi.open_ z hz hw
    have hne : z ≠ x := fun e => hzc (e ▸ hf)
    have hzq : z.monitorQuitChannel ≠ c := by
      intro e
      exact hne (eq_of_shared_channel hi.apart hz hx (Or.inr (Or.inl (e.trans hf.symm))))
    simp only [List.mem_cons, not_or]
    exact ⟨⟨hzq, o1⟩, ⟨hzc, o2⟩⟩

/-- After the watcher of quit channel `q` has been cancelled and both its
channels are closed, the channel discipline still holds. -/
theorem ChanInv.after_cancel {w : World} (hi : ChanInv w) {x : Watcher} (hx : x ∈ w.watchers)
    {q : Nat} (hq : x.monitorQuitChannel = q) (p : Pid) :
    ChanInv { w with watchers := w.watchers.map (cancelOn q),
                     closed := x.monitorChannel :: q :: w.closed, pid := p } := by
  refine ⟨pairwise_apart_map (cancelOn_fields q) hi.apart, ?_, ?_⟩
  · intro y hy
    obtain ⟨z, hz, rfl⟩ := List.mem_map.mp hy
    rw [(cancelOn_fields q z).1, (cancelOn_fields q z).2.1]
    exact hi.own z hz
  · intro y hy hw
    obtain ⟨z, hz, rfl⟩ := List.mem_map.mp hy
    obtain ⟨hzc, hzz⟩ := cancelOn_waiting hw
    rw [hzz] at hw ⊢
    obtain ⟨o1, o2⟩ := hi.open_ z hz hw
    have hne : z ≠ x := fun e => hzc (e ▸ hq)
    have h1 : z.monitorQuitChannel ≠ x.monitorChannel := fun e =>
      hne (eq_of_shared_channel hi.apart hz hx (Or.inr (Or.inl e)))
    have h2 : z.monitorChannel ≠ x.monitorChannel := fun e =>
      hne (eq_of_shared_channel hi.apart hz hx (Or.inr (Or.inr (Or.inr e))))
    have h3 : z.monitorChannel ≠ q := fun e =>
      hne (eq_of_shared_channel hi.apart hz hx (Or.inr (Or.inr (Or.inl (e.trans hq.symm)))))
    simp only [List.mem_cons, not_or]
    exact ⟨⟨h1, hzc, o1⟩, ⟨h2, h3, o2⟩⟩

/-! ### The two loops of `cleanup` -/

theorem drainScheduled_spec (l : List (String × Nat)) :
    ∀ {w : World}, ChanInv w → (l.map Prod.fst).Nodup →
      (∀ e ∈ l, ∃ x ∈ w.watchers, x.monitorChannel = e.2 ∧ x.status = .waiting ∧
        x.monitor.String = e.1) →
      ∃ w', drainScheduled w l = .ok w' ∧ ChanInv w' ∧
        w'.doSendLog = w.doSendLog ++
          l.map (fun e => (ownerMonitor w.watchers e.2, Message.DownMessagePtr w.pid.ref)) ∧
        (∀ c ∈ w'.closed, c ∈ w.closed ∨ c ∈ l.map Prod.snd) ∧
        (∀ y ∈ w'.watchers, ∃ x ∈ w.watchers,
          y.monitorQuitChannel = x.monitorQuitChannel ∧
          y.monitorChannel = x.monitorChannel ∧ y.monitor = x.monitor) := by
  induction l with
  | nil =>
    intro w hi _ _
    exact ⟨w, rfl, hi, by simp, fun c hc => Or.inl hc,
      fun y hy => ⟨y, hy, rfl, rfl, rfl⟩⟩
  | cons e rest ih =>
    intro w hi hk hreg
    obtain ⟨n, ch⟩ := e
    obtain ⟨x, hx, hf, hs, hname⟩ := hreg (n, ch) (List.mem_cons_self _ _)
    simp only at hf hname
    have h1 := chanSend_fire hi hx hs hf
    have hi2 := hi.after_fire hx hf
      { w.pid with scheduled := mapDelete w.pid.scheduled n }
      (w.doSendLog ++ [(x.monitor, .DownMessagePtr w.pid.ref)])
    have hch : ch ∉ w.closed := hf ▸ (hi.open_ x hx hs).2
    have h2 : chanClose
        { w with watchers := w.watchers.map (fireOn ch)
                 doSendLog := w.doSendLog ++ [(x.monitor, .DownMessagePtr w.pid.ref)] }
        (some ch) =
        .ok { w with watchers := w.watchers.map (fireOn ch)
                     doSendLog := w.doSendLog ++ [(x.monitor, .DownMessagePtr w.pid.ref)]
                     closed := ch :: w.closed } := by
      refine chanClose_quiet hch ?_
      intro y hy hw
      have ho := hi2.open_ y hy hw
      simp only [List.mem_cons, not_or] at ho
      exact ⟨ho.1.1, ho.2.1⟩
    have hstep : drainScheduled w ((n, ch) :: rest) =
        drainScheduled
          { w with watchers := w.watchers.map (fireOn ch), closed := ch :: w.closed
                   pid := { w.pid with scheduled := mapDelete w.pid.scheduled n }
                   doSendLog := w.doSendLog ++ [(x.monitor, .DownMessagePtr w.pid.ref)] }
          rest := by
      simp only [drainScheduled, h1, h2]
    simp only [List.map_cons, List.nodup_cons] at hk
    have hreg2 : ∀ e ∈ rest, ∃ y ∈ w.watchers.map (fireOn ch), y.monitorChannel = e.2 ∧
        y.status = .waiting ∧ y.monitor.String = e.1 := by
      intro e he
      obtain ⟨z, hz, hzf, hzs, hzn⟩ := hreg e (List.mem_cons_of_mem _ he)
      have hne : z.monitorChannel ≠ ch := by
        intro hzc
        have hzx : z = x := eq_of_shared_channel hi.apart hz hx
          (Or.inr (Or.inr (Or.inr (hzc.trans hf.symm))))
        apply hk.1
        rw [← hname, ← hzx, hzn]
        exact List.mem_map_of_mem _ he
      refine ⟨z, List.mem_map.mpr ⟨z, hz, ?_⟩, hzf, hzs, hzn⟩
      simp [fireOn, hne]
    obtain ⟨w', hd, hi', hlog, hcl, hws⟩ := ih hi2 hk.2 hreg2
    refine ⟨w', hstep.trans hd, hi', ?_, ?_, ?_⟩
    · rw [hlog]
      simp only [List.map_cons, List.append_assoc, List.singleton_append]
      rw [ownerMonitor_eq hi.apart hx hf]
      congr 2
      refine List.map_congr_left ?_
      intro e _
      rw [ownerMonitor_map _ (fireOn_fields ch)]
      rfl
    · intro c hc
      rcases hcl c hc with h | h
      · simp only [List.mem_cons] at h
        rcases h with rfl | h
        · exact Or.inr (by simp)
        · exact Or.inl h
      · exact Or.inr (by simp [h])
    · intro y hy
      obtain ⟨z, hz, h⟩ := hws y hy
      obtain ⟨z0, hz0, rfl⟩ := List.mem_map.mp hz
      refine ⟨z0, hz0, ?_⟩
      rw [h.1, h.2.1, h.2.2]
      exact fireOn_fields ch z0

theorem closeQuitChannels_spec (l : List (String × Nat)) :
    ∀ {w : World}, (l.map Prod.snd).Nodup → (∀ e ∈ l, e.2 ∉ w.closed) →
      (∀ e ∈ l, ∀ x ∈ w.watchers, x.monitorChannel ≠ e.2) →
      ∃ w', closeQuitChannels w l = .ok w' ∧ w'.doSendLog = w.doSendLog := by
  induction l with
  | nil => intro w _ _ _; exact ⟨w, rfl, rfl⟩
  | cons e rest ih =>
    intro w hk hc hf
    obtain ⟨n, c⟩ := e
    simp only [List.map_cons, List.nodup_cons] at hk
    have hcn : c ∉ w.closed := hc (n, c) (List.mem_cons_self _ _)
    have hout : (wakeAll w.pid.ref w.watchers c).2 = [] :=
      wakeAll_out_nil w.watchers (hf (n, c) (List.mem_cons_self _ _))
    have h1 : chanClose w (some c) =
        .ok { w with closed := c :: w.closed, watchers := (wakeAll w.pid.ref w.watchers c).1 } := by
      simp [chanClose, hcn, hout]
    have hstep : closeQuitChannels w ((n, c) :: rest) =
        closeQuitChannels
          { w with closed := c :: w.closed, watchers := (wakeAll w.pid.ref w.watchers c).1
                   pid := w.pid.deleteQuit n } rest := by
      simp only [closeQuitChannels, h1]
    have hc2 : ∀ e ∈ rest, e.2 ∉ c :: w.closed := by
      intro e he
      simp only [List.mem_cons, not_or]
      refine ⟨?_, hc e (List.mem_cons_of_mem _ he)⟩
      intro h
      exact hk.1 (h ▸ List.mem_map_of_mem _ he)
    have hf2 : ∀ e ∈ rest, ∀ x ∈ (wakeAll w.pid.ref w.watchers c).1, x.monitorChannel ≠ e.2 := by
      intro e he y hy
      obtain ⟨z, hz, h⟩ := wakeAll_mem w.watchers y hy
      rw [h.2.1]
      exact hf e (List.mem_cons_of_mem _ he) z hz
    obtain ⟨w', hd, hlog⟩ := @ih
      { w with closed := c :: w.closed, watchers := (wakeAll w.pid.ref w.watchers c).1
               pid := w.pid.deleteQuit n } hk.2 hc2 hf2
    exact ⟨w', hstep.trans hd, hlog⟩

/-! ### The maps -/

theorem mem_mapSet {m : List (String × Nat)} {k : String} {v : Nat} {e : String × Nat} :
    e ∈ mapSet m k v ↔ e = (k, v) ∨ (e ∈ m ∧ e.1 ≠ k) := by
  simp [mapSet, List.mem_filter]

theorem mem_mapDelete {m : List (String × Nat)} {k : String} {e : String × Nat} :
    e ∈ mapDelete m k ↔ e ∈ m ∧ e.1 ≠ k := by
  simp [mapDelete, List.mem_filter]

theorem mapDelete_keys_nodup {m : List (String × Nat)} (k : String)
    (h : (m.map Prod.fst).Nodup) : ((mapDelete m k).map Prod.fst).Nodup :=
  ((List.filter_sublist m).map Prod.fst).nodup h

theorem mapSet_keys_nodup {m : List (String × Nat)} (k : String) (v : Nat)
    (h : (m.map Prod.fst).Nodup) : ((mapSet m k v).map Prod.fst).Nodup := by
  simp only [mapSet, List.map_cons, List.nodup_cons]
  refine ⟨?_, mapDelete_keys_nodup k h⟩
  intro hk
  obtain ⟨e, he, hek⟩ := List.mem_map.mp hk
  have := (List.mem_filter.mp he).2
  simp at this
  exact this hek

theorem mapGet_some_mem {m : List (String × Nat)} {k : String} {v : Nat}
    (h : mapGet m k = some v) : (k, v) ∈ m := by
  unfold mapGet at h
  cases hf : m.find? (fun e => e.1 = k) with
  | none => simp [hf] at h
  | some e =>
    simp only [hf, Option.map_some', Option.some.injEq] at h
    have hk : e.1 = k := by simpa using List.find?_some hf
    have he : e ∈ m := List.mem_of_find?_eq_some hf
    have : e = (k, v) := Prod.ext hk h
    exact this ▸ he

theorem mapGet_of_mem {m : List (String × Nat)} {k : String} {v : Nat}
    (hn : (m.map Prod.fst).Nodup) (h : (k, v) ∈ m) : mapGet m k = some v := by
  induction m with
  | nil => simp at h
  | cons e rest ih =>
    simp only [List.map_cons, List.nodup_cons] at hn
    rcases List.mem_cons.mp h with rfl | hr
    · simp [mapGet]
    · have hne : e.1 ≠ k := by
        intro hek
        exact hn.1 (hek ▸ List.mem_map_of_mem Prod.fst hr)
      have := ih hn.2 hr
      simpa [mapGet, List.find?_cons, hne] using this

theorem mapGet_none_of_not_mem {m : List (String × Nat)} {k : String}
    (h : ∀ e ∈ m, e.1 ≠ k) : mapGet m k = none := by
  unfold mapGet
  have : m.find? (fun e => e.1 = k) = none := by
    rw [List.find?_eq_none]
    intro e he
    simpa using h e he
  simp [this]

theorem mapGet_mapDelete (m : List (String × Nat)) (k : String) :
    mapGet (mapDelete m k) k = none :=
  mapGet_none_of_not_mem (fun _ he => (mem_mapDelete.mp he).2)

/-! ### `setupMonitor` keeps the invariant -/

theorem quitMap_of_some {p : Pid} {mq : List (String × Nat)}
    (h : p.monitorQuitChannels = some mq) : p.quitMap = mq := by
  simp [Pid.quitMap, h]

theorem setupMonitor_eq {w : World} (hi : MonInv w) (monitor : PidRef) :
    setupMonitor w monitor =
      .ok { w with
        nextChan := w.nextChan + 2
        pid := { w.pid with
          scheduled := mapSet w.pid.scheduled monitor.String w.nextChan
          monitorQuitChannels :=
            some (mapSet w.pid.quitMap monitor.String (w.nextChan + 1)) }
        watchers := w.watchers ++ [⟨w.nextChan + 1, w.nextChan, monitor, .waiting⟩] } := by
  simp [setupMonitor, hi.quit_some]

theorem setupMonitor_inv {w : World} (hi : MonInv w) (monitor : PidRef) :
    MonInv { w with
      nextChan := w.nextChan + 2
      pid := { w.pid with
        scheduled := mapSet w.pid.scheduled monitor.String w.nextChan
        monitorQuitChannels :=
          some (mapSet w.pid.quitMap monitor.String (w.nextChan + 1)) }
      watchers := w.watchers ++ [⟨w.nextChan + 1, w.nextChan, monitor, .waiting⟩] } := by
  refine ⟨⟨?_, ?_, ?_⟩, ?_, ?_, ?_, ?_, ?_, ?_, ?_, ?_, ?_⟩
  · -- apart
    simp only [List.pairwise_append, List.pairwise_cons, List.Pairwise.nil, and_true,
      List.mem_singleton, forall_eq, List.not_mem_nil, false_implies, implies_true, true_and]
    refine ⟨hi.chan.apart, ?_⟩
    intro a ha
    obtain ⟨h1, h2⟩ := hi.fresh a ha
    refine ⟨?_, ?_, ?_, ?_⟩ <;> simp only [ne_eq] <;> omega
  · -- own
    intro x hx
    simp only [List.mem_append, List.mem_singleton] at hx
    rcases hx with hx | rfl
    · exact hi.chan.own x hx
    · simp
  · -- open
    intro x hx hs
    simp only [List.mem_append, List.mem_singleton] at hx
    rcases hx with hx | rfl
    · exact hi.chan.open_ x hx hs
    · refine ⟨fun h => ?_, fun h => ?_⟩
      · have := hi.closed_lt _ h
        simp only at this
        omega
      · have := hi.closed_lt _ h
        simp only at this
        omega
  · -- fresh
    intro x hx
    simp only [List.mem_append, List.mem_singleton] at hx
    rcases hx with hx | rfl
    · obtain ⟨h1, h2⟩ := hi.fresh x hx
      exact ⟨by simp only; omega, by simp only; omega⟩
    · exact ⟨by simp only; omega, by simp only; omega⟩
  · -- closed_lt
    intro c hc
    have := hi.closed_lt c hc
    simp only
    omega
  · -- quit_some
    simp [Pid.quitMap]
  · exact mapSet_keys_nodup _ _ hi.sched_keys
  · simpa [Pid.quitMap] using mapSet_keys_nodup monitor.String (w.nextChan + 1) hi.quit_keys
  · -- sched_reg
    intro e he
    simp only [Pid.quitMap, Option.getD_some]
    rcases mem_mapSet.mp he with rfl | ⟨hm, hne⟩
    · exact ⟨⟨w.nextChan + 1, w.nextChan, monitor, .waiting⟩, by simp, rfl, rfl, rfl,
        mem_mapSet.mpr (Or.inl rfl)⟩
    · obtain ⟨x, hx, h1, h2, h3, h4⟩ := hi.sched_reg e hm
      exact ⟨x, List.mem_append_left _ hx, h1, h2, h3, mem_mapSet.mpr (Or.inr ⟨h4, hne⟩)⟩
  · -- quit_reg
    intro e he
    simp only [Pid.quitMap, Option.getD_some] at he
    rcases mem_mapSet.mp he with rfl | ⟨hm, hne⟩
    · exact ⟨⟨w.nextChan + 1, w.nextChan, monitor, .waiting⟩, by simp, rfl, rfl, rfl,
        mem_mapSet.mpr (Or.inl rfl)⟩
    · obtain ⟨x, hx, h1, h2, h3, h4⟩ := hi.quit_reg e hm
      exact ⟨x, List.mem_append_left _ hx, h1, h2, h3, mem_mapSet.mpr (Or.inr ⟨h4, hne⟩)⟩
  · -- endpoints
    obtain ⟨a, h1, h2, h3, h4, h5, h6, h7⟩ := hi.endpoints
    refine ⟨a, h1, h2, h3, h4, by simp only; omega, h6, ?_⟩
    intro x hx
    simp only [List.mem_append, List.mem_singleton] at hx
    rcases hx with hx | rfl
    · exact h7 x hx
    · exact ⟨by simp only; omega, by simp only; omega⟩
  · exact hi.log

/-! ### `removeMonitor` keeps the invariant -/

theorem removeMonitor_blocked {w : World} (monitor : PidRef)
    (h : mapGet w.pid.quitMap monitor.String = none) :
    removeMonitor w monitor = .error .blocked := by
  simp [removeMonitor, h, chanSend]

theorem removeMonitor_eq {w : World} (hi : MonInv w) (monitor : PidRef) {q : Nat}
    (hq : (monitor.String, q) ∈ w.pid.quitMap) :
    ∃ x ∈ w.watchers, x.monitorQuitChannel = q ∧ x.status = .waiting ∧
      x.monitor.String = monitor.String ∧
      (monitor.String, x.monitorChannel) ∈ w.pid.scheduled ∧
      removeMonitor w monitor =
        .ok { w with
          watchers := w.watchers.map (cancelOn q)
          closed := x.monitorChannel :: q :: w.closed
          pid := { w.pid.deleteQuit monitor.String with
            scheduled := mapDelete w.pid.scheduled monitor.String } } := by
  obtain ⟨x, hx, hxq, hs, hname, hsched⟩ := hi.quit_reg _ hq
  simp only at hxq hname hsched
  refine ⟨x, hx, hxq, hs, hname, hsched, ?_⟩
  have g1 : mapGet w.pid.quitMap monitor.String = some q := mapGet_of_mem hi.quit_keys hq
  have g3 : mapGet w.pid.scheduled monitor.String = some x.monitorChannel :=
    mapGet_of_mem hi.sched_keys hsched
  have h1 := chanSend_cancel hi.chan hx hs hxq
  have hi2 := hi.chan.after_cancel hx hxq w.pid
  have hopen := hi.chan.open_ x hx hs
  have hquiet : ∀ y ∈ w.watchers.map (cancelOn q), y.status = .waiting →
      (y.monitorQuitChannel ≠ q ∧ y.monitorChannel ≠ q) ∧
      (y.monitorQuitChannel ≠ x.monitorChannel ∧ y.monitorChannel ≠ x.monitorChannel) := by
    intro y hy hw
    have ho := hi2.open_ y hy hw
    simp only [List.mem_cons, not_or] at ho
    exact ⟨⟨ho.1.2.1, ho.2.2.1⟩, ⟨ho.1.1, ho.2.1⟩⟩
  have h2 : chanClose { w with watchers := w.watchers.map (cancelOn q) } (some q) =
      .ok { w with watchers := w.watchers.map (cancelOn q), closed := q :: w.closed } :=
    chanClose_quiet (hxq ▸ hopen.1) (fun y hy hw => (hquiet y hy hw).1)
  have hxf : x.monitorChannel ∉ q :: w.closed := by
    simp only [List.mem_cons, not_or]
    exact ⟨fun e => hi.chan.own x hx (hxq.trans e.symm), hopen.2⟩
  have h3 : chanClose
      { w with watchers := w.watchers.map (cancelOn q), closed := q :: w.closed }
      (some x.monitorChannel) =
      .ok { w with watchers := w.watchers.map (cancelOn q)
                   closed := x.monitorChannel :: q :: w.closed } :=
    chanClose_quiet hxf (fun y hy hw => (hquiet y hy hw).2)
  unfold removeMonitor
  simp only [g1, h1]
  simp only [g1, h2]
  rw [g3, h3]

theorem mem_map_cancelOn {ws : List Watcher} {z : Watcher} {q : Nat} (hz : z ∈ ws)
    (hne : z.monitorQuitChannel ≠ q) : z ∈ ws.map (cancelOn q) :=
  List.mem_map.mpr ⟨z, hz, by simp [cancelOn, hne]⟩

theorem removeMonitor_inv {w : World} (hi : MonInv w) (monitor : PidRef) {x : Watcher}
    (hx : x ∈ w.watchers)
    (hname : x.monitor.String = monitor.String) :
    MonInv { w with
      watchers := w.watchers.map (cancelOn x.monitorQuitChannel)
      closed := x.monitorChannel :: x.monitorQuitChannel :: w.closed
      pid := { w.pid.deleteQuit monitor.String with
        scheduled := mapDelete w.pid.scheduled monitor.String } } := by
  obtain ⟨mq, hmq⟩ : ∃ mq, w.pid.monitorQuitChannels = some mq := ⟨_, hi.quit_some⟩
  have hqm : ({ w.pid.deleteQuit monitor.String with
      scheduled := mapDelete w.pid.scheduled monitor.String } : Pid).quitMap =
      mapDelete w.pid.quitMap monitor.String := by
    simp [Pid.quitMap, Pid.deleteQuit, hmq]
  have hkeep : ∀ z ∈ w.watchers, z.monitor.String ≠ monitor.String →
      z ∈ w.watchers.map (cancelOn x.monitorQuitChannel) := by
    intro z hz hzn
    refine mem_map_cancelOn hz ?_
    intro e
    have : z = x := eq_of_shared_channel hi.chan.apart hz hx (Or.inl e)
    exact hzn (this ▸ hname)
  obtain ⟨f1, f2⟩ := hi.fresh x hx
  refine ⟨hi.chan.after_cancel hx rfl _, ?_, ?_, ?_, ?_, ?_, ?_, ?_, ?_, hi.log⟩
  · intro y hy
    obtain ⟨z, hz, rfl⟩ := List.mem_map.mp hy
    rw [(cancelOn_fields _ z).1, (cancelOn_fields _ z).2.1]
    exact hi.fresh z hz
  · intro c hc
    simp only [List.mem_cons] at hc
    rcases hc with rfl | rfl | hc
    · exact f2
    · exact f1
    · exact hi.closed_lt c hc
  · rw [hqm]
    simp [Pid.deleteQuit, hmq, quitMap_of_some hmq]
  · exact mapDelete_keys_nodup _ hi.sched_keys
  · rw [hqm]
    exact mapDelete_keys_nodup _ hi.quit_keys
  · intro e he
    rw [hqm]
    obtain ⟨hm, hne⟩ := mem_mapDelete.mp he
    obtain ⟨z, hz, h1, h2, h3, h4⟩ := hi.sched_reg e hm
    exact ⟨z, hkeep z hz (h3 ▸ hne), h1, h2, h3, mem_mapDelete.mpr ⟨h4, hne⟩⟩
  · intro e he
    rw [hqm] at he
    obtain ⟨hm, hne⟩ := mem_mapDelete.mp he
    obtain ⟨z, hz, h1, h2, h3, h4⟩ := hi.quit_reg e hm
    exact ⟨z, hkeep z hz (h3 ▸ hne), h1, h2, h3, mem_mapDelete.mpr ⟨h4, hne⟩⟩
  · obtain ⟨a, h1, h2, h3, h4, h5, h6, h7⟩ := hi.endpoints
    refine ⟨a, h1, h2, h3, h4, h5, ?_, ?_⟩
    · intro c hc
      simp only [List.mem_cons] at hc
      rcases hc with rfl | rfl | hc
      · exact (h7 x hx).2
      · exact (h7 x hx).1
      · exact h6 c hc
    · intro y hy
      obtain ⟨z, hz, rfl⟩ := List.mem_map.mp hy
      rw [(cancelOn_fields _ z).1, (cancelOn_fields _ z).2.1]
      exact h7 z hz

/-- Every monitor request that completes keeps the invariant. -/
theorem applyOp_inv {w w' : World} (hi : MonInv w) (op : MonOp)
    (h : applyOp w op = .ok w') : MonInv w' := by
  cases op with
  | setup m =>
    simp only [applyOp, setupMonitor_eq hi m, Except.ok.injEq] at h
    exact h ▸ setupMonitor_inv hi m
  | remove m =>
    simp only [applyOp] at h
    cases hg : mapGet w.pid.quitMap m.String with
    | none => simp [removeMonitor_blocked m hg] at h
    | some q =>
      obtain ⟨x, hx, hxq, _, hname, _, heq⟩ := removeMonitor_eq hi m (mapGet_some_mem hg)
      rw [heq] at h
      simp only [Except.ok.injEq] at h
      subst hxq
      exact h ▸ removeMonitor_inv hi m hx hname

theorem applyOps_inv (ops : List MonOp) : ∀ {w w' : World}, MonInv w →
    applyOps w ops = .ok w' → MonInv w' := by
  induction ops with
  | nil =>
    intro w w' hi h
    simp only [applyOps, Except.ok.injEq] at h
    exact h ▸ hi
  | cons op rest ih =>
    intro w w' hi h
    simp only [applyOps] at h
    cases h1 : applyOp w op with
    | error f => simp [h1] at h
    | ok w1 =>
      simp only [h1] at h
      exact ih (applyOp_inv hi op h1) h

theorem createPid_inv (machineId : String) (machines : List (String × Machine))
    (order : MapOrder) (registry : List Pid) (id : String) (base : Nat) :
    MonInv (createPid machineId machines order registry id base) := by
  refine ⟨⟨?_, ?_, ?_⟩, ?_, ?_, ?_, ?_, ?_, ?_, ?_, ?_, ?_⟩ <;>
    simp [createPid, Pid.quitMap]

/-! ### `cleanup` under the invariant -/

theorem quit_channels_nodup {w : World} (hi : MonInv w) :
    (w.pid.quitMap.map Prod.snd).Nodup := by
  refine List.Nodup.map_on ?_ (List.Nodup.of_map _ hi.quit_keys)
  intro e1 h1 e2 h2 heq
  obtain ⟨x1, hx1, q1, _, n1, _⟩ := hi.quit_reg e1 h1
  obtain ⟨x2, hx2, q2, _, n2, _⟩ := hi.quit_reg e2 h2
  have hx : x1 = x2 :=
    eq_of_shared_channel hi.chan.apart hx1 hx2 (Or.inl (q1.trans (heq.trans q2.symm)))
  exact Prod.ext (n1.symm.trans (hx ▸ n2)) heq

/-- No watcher has the quit channel of a registered subscription as its fire
channel. -/
theorem quit_channel_not_fire {w : World} (hi : MonInv w) {e : String × Nat}
    (he : e ∈ w.pid.quitMap) {z : Watcher} (hz : z ∈ w.watchers) :
    z.monitorChannel ≠ e.2 := by
  intro h
  obtain ⟨x, hx, q, _, _, _⟩ := hi.quit_reg e he
  have hzx : z = x :=
    eq_of_shared_channel hi.chan.apart hz hx (Or.inr (Or.inr (Or.inl (h.trans q.symm))))
  subst hzx
  exact hi.chan.own z hz (q.trans h.symm)

theorem Sender.mutex_cases (l : List Sender) :
    Mutex.messageChanMu ∉ l.map Sender.mutex ∧ Mutex.demonitorChanMu ∉ l.map Sender.mutex := by
  refine ⟨fun h => ?_, fun h => ?_⟩ <;>
  · obtain ⟨x, _, hx⟩ := List.mem_map.mp h
    cases x <;> simp [Sender.mutex] at hx

/-- Under the invariant `cleanup` either completes, and has then routed one
`DownMessage` per entry of `pid.scheduled` to the subscriber of its watcher, or
it waits for ever at the `Lock()` of an endpoint whose read lock a sender
holds, with no `DownMessage` sent and every watcher as it was. -/
theorem cleanup_cases {w : World} (hi : MonInv w) :
    (∃ w', cleanup w = .ok w' ∧
      w'.doSendLog = (w.rangeOrder.run w.pid.scheduled).map
        (fun e => (ownerMonitor w.watchers e.2, Message.DownMessagePtr w.pid.ref))) ∨
    (∃ w', cleanup w = .error (.blocked, w') ∧ w'.doSendLog = [] ∧
      w'.watchers = w.watchers ∧ w.blocked ≠ []) := by
  obtain ⟨a, e1, e2, e3, e4, _, hcl, hws⟩ := hi.endpoints
  have hquiet : ∀ c, c ≤ a + 3 → ∀ x ∈ w.watchers, x.status = .waiting →
      x.monitorQuitChannel ≠ c ∧ x.monitorChannel ≠ c := by
    intro c hc x hx _
    obtain ⟨h1, h2⟩ := hws x hx
    exact ⟨by omega, by omega⟩
  have hnc : ∀ c, c ≤ a + 3 → c ∉ w.closed := by
    intro c hc h
    have := hcl c h
    omega
  have c1 : chanClose { w with registry := deletePid w.registry w.pid.Id } (some a) =
      .ok { w with registry := deletePid w.registry w.pid.Id, closed := a :: w.closed } :=
    chanClose_quiet (hnc a (by omega)) (hquiet a (by omega))
  have c2 : chanClose
      { w with registry := deletePid w.registry w.pid.Id, closed := a :: w.closed
               pid := { w.pid with quitChan := none } } (some (a + 1)) =
      .ok { w with registry := deletePid w.registry w.pid.Id
                   closed := (a + 1) :: a :: w.closed
                   pid := { w.pid with quitChan := none } } := by
    refine chanClose_quiet ?_ (hquiet (a + 1) (by omega))
    simp only [List.mem_cons, not_or]
    exact ⟨by omega, hnc _ (by omega)⟩
  have c3 : chanClose
      { w with registry := deletePid w.registry w.pid.Id
               closed := (a + 1) :: a :: w.closed
               pid := { w.pid with quitChan := none, messageChan := none } } (some (a + 2)) =
      .ok { w with registry := deletePid w.registry w.pid.Id
                   closed := (a + 2) :: (a + 1) :: a :: w.closed
                   pid := { w.pid with quitChan := none, messageChan := none } } := by
    refine chanClose_quiet ?_ (hquiet (a + 2) (by omega))
    simp only [List.mem_cons, not_or]
    exact ⟨by omega, by omega, hnc _ (by omega)⟩
  have c4 : chanClose
      { w with registry := deletePid w.registry w.pid.Id
               closed := (a + 2) :: (a + 1) :: a :: w.closed
               pid := { w.pid with quitChan := none, messageChan := none
                                   monitorChan := none } } (some (a + 3)) =
      .ok { w with registry := deletePid w.registry w.pid.Id
                   closed := (a + 3) :: (a + 2) :: (a + 1) :: a :: w.closed
                   pid := { w.pid with quitChan := none, messageChan := none
                                       monitorChan := none } } := by
    refine chanClose_quiet ?_ (hquiet (a + 3) (by omega))
    simp only [List.mem_cons, not_or]
    exact ⟨by omega, by omega, by omega, hnc _ (by omega)⟩
  -- the state entering the first loop
  have hi4 : ChanInv
      { w with registry := deletePid w.registry w.pid.Id
               closed := (a + 3) :: (a + 2) :: (a + 1) :: a :: w.closed
               pid := { w.pid with quitChan := none, messageChan := none
                                   monitorChan := none, demonitorChan := none } } := by
    refine ⟨hi.chan.apart, hi.chan.own, ?_⟩
    intro x hx hs
    obtain ⟨o1, o2⟩ := hi.chan.open_ x hx hs
    obtain ⟨h1, h2⟩ := hws x hx
    simp only [List.mem_cons, not_or]
    exact ⟨⟨by omega, by omega, by omega, by omega, o1⟩,
      ⟨by omega, by omega, by omega, by omega, o2⟩⟩
  have hperm := w.rangeOrder.perm w.pid.scheduled
  have hreg4 : ∀ e ∈ w.rangeOrder.run w.pid.scheduled, ∃ x ∈ w.watchers,
      x.monitorChannel = e.2 ∧ x.status = .waiting ∧ x.monitor.String = e.1 := by
    intro e he
    obtain ⟨x, hx, h1, h2, h3, _⟩ := hi.sched_reg e (hperm.mem_iff.mp he)
    exact ⟨x, hx, h1, h2, h3⟩
  obtain ⟨w5, hd, _, hlog5, hcl5, hws5⟩ := drainScheduled_spec
    (w.rangeOrder.run w.pid.scheduled) hi4
    ((hperm.map Prod.fst).nodup_iff.mpr hi.sched_keys) hreg4
  obtain ⟨_, hq5⟩ := drainScheduled_frame _ hd
  have hqm5 : w5.pid.quitMap = w.pid.quitMap := by
    simp only [Pid.quitMap, hq5]
  have hperm2 := w5.rangeOrder.perm w.pid.quitMap
  have hne : ∀ e ∈ w5.rangeOrder.run w.pid.quitMap, e.2 ∉ w5.closed := by
    intro e he hc
    have he := hperm2.mem_iff.mp he
    obtain ⟨x, hx, q, hs, _, _⟩ := hi.quit_reg e he
    obtain ⟨o1, _⟩ := hi.chan.open_ x hx hs
    obtain ⟨h1, _⟩ := hws x hx
    rcases hcl5 _ hc with h | h
    · simp only [List.mem_cons] at h
      rw [q] at o1 h1
      rcases h with h | h | h | h | h
      · omega
      · omega
      · omega
      · omega
      · exact o1 h
    · obtain ⟨e', he', hee⟩ := List.mem_map.mp h
      obtain ⟨z, hz, hzf, _⟩ := hi.sched_reg e' (hperm.mem_iff.mp he')
      exact quit_channel_not_fire hi he hz (hzf.trans hee)
  have hnf : ∀ e ∈ w5.rangeOrder.run w.pid.quitMap, ∀ y ∈ w5.watchers,
      y.monitorChannel ≠ e.2 := by
    intro e he y hy
    have he := hperm2.mem_iff.mp he
    obtain ⟨z, hz, _, hf, _⟩ := hws5 y hy
    rw [hf]
    exact quit_channel_not_fire hi he hz
  obtain ⟨w6, hc6, hlog6⟩ := closeQuitChannels_spec (w5.rangeOrder.run w.pid.quitMap)
    ((hperm2.map Prod.snd).nodup_iff.mpr (quit_channels_nodup hi)) hne hnf
  obtain ⟨q2, q4⟩ := Sender.mutex_cases w.blocked
  by_cases q1 : Mutex.quitChanMu ∈ w.blocked.map Sender.mutex
  · -- a Kill holds `quitChanMu`
    right
    have x1 : closeEndpoint { w with registry := deletePid w.registry w.pid.Id }
        .quitChanMu (some a) = .error .blocked := closeEndpoint_held _ q1
    refine ⟨{ w with registry := deletePid w.registry w.pid.Id }, ?_, hi.log, rfl, ?_⟩
    · unfold cleanup
      simp only [e1, x1]
    · intro hb
      rw [hb] at q1
      simp at q1
  · have d1 := (closeEndpoint_free (w := { w with registry := deletePid w.registry w.pid.Id })
      (some a) q1).trans c1
    have d2 := (closeEndpoint_free (w :=
      { w with registry := deletePid w.registry w.pid.Id, closed := a :: w.closed
               pid := { w.pid with quitChan := none } }) (some (a + 1)) q2).trans c2
    by_cases q3 : Mutex.monitorChanMu ∈ w.blocked.map Sender.mutex
    · -- a caller of Monitor holds `monitorChanMu`
      right
      have x3 : closeEndpoint
          { w with registry := deletePid w.registry w.pid.Id
                   closed := (a + 1) :: a :: w.closed
                   pid := { w.pid with quitChan := none, messageChan := none } }
          .monitorChanMu (some (a + 2)) = .error .blocked := closeEndpoint_held _ q3
      refine ⟨{ w with registry := deletePid w.registry w.pid.Id
                       closed := (a + 1) :: a :: w.closed
                       pid := { w.pid with quitChan := none, messageChan := none } },
        ?_, hi.log, rfl, ?_⟩
      · unfold cleanup
        simp only [e1, e2, e3, e4] at d1 d2 x3
        simp only [e1, e2, e3, e4, d1, d2, x3]
      · intro hb
        rw [hb] at q3
        simp at q3
    · left
      have d3 := (closeEndpoint_free (w :=
        { w with registry := deletePid w.registry w.pid.Id
                 closed := (a + 1) :: a :: w.closed
                 pid := { w.pid with quitChan := none, messageChan := none } })
        (some (a + 2)) q3).trans c3
      have d4 := (closeEndpoint_free (w :=
        { w with registry := deletePid w.registry w.pid.Id
                 closed := (a + 2) :: (a + 1) :: a :: w.closed
                 pid := { w.pid with quitChan := none, messageChan := none
                                     monitorChan := none } })
        (some (a + 3)) q4).trans c4
      refine ⟨{ w6 with pid := { w6.pid with monitorQuitChannels := none } }, ?_, ?_⟩
      · unfold cleanup
        simp only [e1, e2, e3, e4] at d1 d2 d3 d4 hd
        simp only [e1, e2, e3, e4, d1, d2, d3, d4, hd, hqm5, hc6]
      · simp only [hlog6, hlog5, hi.log, List.nil_append]
        rfl

/-- Under the invariant, and with no sender holding a read lock, `cleanup`
completes. -/
theorem cleanup_spec {w : World} (hi : MonInv w) (hfree : w.blocked = []) :
    ∃ w', cleanup w = .ok w' ∧
      w'.doSendLog = (w.rangeOrder.run w.pid.scheduled).map
        (fun e => (ownerMonitor w.watchers e.2, Message.DownMessagePtr w.pid.ref)) := by
  rcases cleanup_cases hi with h | ⟨_, _, _, _, hne⟩
  · exact h
  · exact absurd hfree hne

/-! ### Who is notified by `cleanup` -/

theorem filter_owner_none (g : Nat → PidRef) (msg : Message) (m : PidRef)
    (l : List (String × Nat)) (hname : ∀ e ∈ l, (g e.2).String = e.1)
    (hun : ∀ e ∈ l, e.1 ≠ m.String) :
    (l.map (fun e => (g e.2, msg))).filter (fun o => o.1 = m) = [] := by
  rw [List.filter_eq_nil_iff]
  intro o ho
  obtain ⟨e, he, rfl⟩ := List.mem_map.mp ho
  have : g e.2 ≠ m := fun h => hun e he (by rw [← hname e he, h])
  simpa using this

theorem owner_name {w : World} (hi : MonInv w) :
    ∀ e ∈ w.pid.scheduled, (ownerMonitor w.watchers e.2).String = e.1 := by
  intro e he
  obtain ⟨x, hx, hf, _, hn, _⟩ := hi.sched_reg e he
  rw [ownerMonitor_eq hi.chan.apart hx hf, hn]

/-! ### The worker keeps the invariant -/

theorem MonInv.with_buffers {w : World} (hi : MonInv w) (b : List (Nat × List Message)) :
    MonInv { w with buffers := b } :=
  ⟨⟨hi.chan.apart, hi.chan.own, hi.chan.open_⟩, hi.fresh, hi.closed_lt, hi.quit_some,
    hi.sched_keys, hi.quit_keys, hi.sched_reg, hi.quit_reg, hi.endpoints, hi.log⟩

theorem MonInv.with_blocked {w : World} (hi : MonInv w) (l : List Sender) :
    MonInv { w with blocked := l } :=
  ⟨⟨hi.chan.apart, hi.chan.own, hi.chan.open_⟩, hi.fresh, hi.closed_lt, hi.quit_some,
    hi.sched_keys, hi.quit_keys, hi.sched_reg, hi.quit_reg, hi.endpoints, hi.log⟩

theorem terminate_status (k : Worker) (r : Option PanicValue) :
    (terminate k r).status = .terminated ↔ ∃ w', cleanup k.world = .ok w' := by
  unfold terminate
  cases hc : cleanup k.world with
  | error f => simp
  | ok w' => simp

/-- The deferred function of a worker whose world satisfies the invariant
routes no `DownMessage` to a pid whose name has no entry in `pid.scheduled`,
whether `cleanup` completes or waits for a lock. -/
theorem terminate_skips_unsubscribed {k : Worker} (hi : MonInv k.world) {m : PidRef}
    (hun : Unsubscribed k.world m) (r : Option PanicValue) :
    downMessagesTo (terminate k r).world m = [] := by
  unfold terminate
  rcases cleanup_cases hi with ⟨w', hc, hlog⟩ | ⟨w', hc, hlog, _⟩
  · simp only [hc]
    unfold downMessagesTo
    rw [hlog]
    have hperm := k.world.rangeOrder.perm k.world.pid.scheduled
    exact filter_owner_none (ownerMonitor k.world.watchers) _ m _
      (fun e he => owner_name hi e (hperm.mem_iff.mp he))
      (fun e he => hun e (hperm.mem_iff.mp he))
  · simp only [hc]
    simp [downMessagesTo, hlog]

/-- The result of a monitor request on a world that satisfies the invariant:
it completes and keeps the invariant, or it is an unsubscribe request for a
name without subscription and waits forever. -/
theorem applyOp_cases {w : World} (hi : MonInv w) (op : MonOp) :
    (∃ w', applyOp w op = .ok w' ∧ MonInv w' ∧ w'.pid.ref = w.pid.ref ∧
      w'.buffers = w.buffers) ∨
    applyOp w op = .error .blocked := by
  cases op with
  | setup m =>
    exact Or.inl ⟨_, setupMonitor_eq hi m, setupMonitor_inv hi m, rfl, rfl⟩
  | remove m =>
    cases hg : mapGet w.pid.quitMap m.String with
    | none => exact Or.inr (removeMonitor_blocked m hg)
    | some q =>
      obtain ⟨x, hx, hxq, _, hname, _, heq⟩ := removeMonitor_eq hi m (mapGet_some_mem hg)
      subst hxq
      exact Or.inl ⟨_, heq, removeMonitor_inv hi m hx hname, rfl, rfl⟩

theorem workerSteps_append (actor : Actor) (a b : List Signal) :
    ∀ k : Worker, workerSteps actor k (a ++ b) = workerSteps actor (workerSteps actor k a) b := by
  induction a with
  | nil => intro k; rfl
  | cons s rest ih => intro k; exact ih (workerStep actor k s)

theorem workerSteps_not_running {actor : Actor} (sigs : List Signal) :
    ∀ {k : Worker}, k.status ≠ .running → workerSteps actor k sigs = k := by
  induction sigs with
  | nil => intro k _; rfl
  | cons s rest ih =>
    intro k h
    simp only [workerSteps, workerStep_not_running h]
    exact ih h

theorem workerSteps_running_left {actor : Actor} {k : Worker} {a b : List Signal}
    (h : (workerSteps actor k (a ++ b)).status = .running) :
    (workerSteps actor k a).status = .running := by
  by_contra hn
  rw [workerSteps_append, workerSteps_not_running b hn] at h
  exact hn h

/-- The monitor case of the worker loop when `setupMonitor` returns. -/
theorem workerStep_monitor {actor : Actor} {k : Worker} (x : PidRef)
    (hrun : k.status = .running) {w' : World}
    (hs : setupMonitor (served k.world (.monitor x)) x = .ok w') :
    workerStep actor k (.monitor x) =
      { k with world := w', trace := k.trace ++ [.info "actor received monitor request"] } := by
  simp [workerStep, hrun, workerCall, hs]

/-- The demonitor case of the worker loop when `removeMonitor` returns. -/
theorem workerStep_demonitor {actor : Actor} {k : Worker} (x : PidRef)
    (hrun : k.status = .running) {w' : World}
    (hs : removeMonitor k.world x = .ok w') :
    workerStep actor k (.demonitor x) =
      { k with world := w', trace := k.trace ++ [.info "actor received demonitor request"] } := by
  simp [workerStep, hrun, workerCall, hs]

/-- The demonitor case of the worker loop when `removeMonitor` waits forever. -/
theorem workerStep_demonitor_stuck {actor : Actor} {k : Worker} (x : PidRef)
    (hrun : k.status = .running)
    (hs : removeMonitor k.world x = .error .blocked) :
    workerStep actor k (.demonitor x) =
      { k with status := .stuck .blocked
               trace := k.trace ++ [.info "actor received demonitor request"] } := by
  simp [workerStep, hrun, workerCall, hs]

/-- A step of a running worker that leaves it running changed the world by a
received message, by `setupMonitor` or by `removeMonitor`. -/
theorem workerStep_running {actor : Actor} {r : PidRef} {k : Worker} (s : Signal)
    (hrun : k.status = .running) (hg : k.Good r)
    (hrun' : (workerStep actor k s).status = .running) :
    (workerStep actor k s).Good r ∧
    ((∃ b, (workerStep actor k s).world = { k.world with buffers := b }) ∨
      (∃ x, s = .monitor x ∧
        setupMonitor (served k.world (.monitor x)) x = .ok (workerStep actor k s).world) ∨
      (∃ x, s = .demonitor x ∧ removeMonitor k.world x = .ok (workerStep actor k s).world)) := by
  obtain ⟨hi, href⟩ := hg
  cases s with
  | quit =>
    simp only [workerStep, hrun] at hrun'
    exact absurd hrun' (terminate_trace _ _).2.2.1
  | message =>
    cases hc : k.world.pid.messageChan with
    | none =>
      have he : workerStep actor k .message = k := by simp [workerStep, hrun, hc]
      rw [he]
      exact ⟨⟨hi, href⟩, Or.inl ⟨k.world.buffers, rfl⟩⟩
    | some c =>
      cases hb : bufGet k.world.buffers c with
      | nil =>
        have he : workerStep actor k .message = k := by simp [workerStep, hrun, hc, hb]
        rw [he]
        exact ⟨⟨hi, href⟩, Or.inl ⟨k.world.buffers, rfl⟩⟩
      | cons m rest =>
        have he : workerStep actor k .message = handleMessage actor
            ({ k with world := { k.world with buffers := bufSet k.world.buffers c rest } }) m := by
          simp [workerStep, hrun, hc, hb]
        rw [he] at hrun' ⊢
        by_cases hp : isPoisonPill m = true
        · simp only [handleMessage, hp, if_true] at hrun'
          exact absurd hrun' (terminate_trace _ _).2.2.1
        · cases hr : (execStmts k.ctx (actor.Run k.handled m)).2.2 with
          | some v =>
            simp only [handleMessage, hp, hr] at hrun'
            exact absurd hrun' (terminate_trace _ _).2.2.1
          | none =>
            simp only [handleMessage, hp, hr]
            exact ⟨⟨hi.with_buffers _, href⟩, Or.inl ⟨_, rfl⟩⟩
  | monitor x =>
    have hi' : MonInv (served k.world (.monitor x)) := hi.with_blocked _
    rw [workerStep_monitor x hrun (setupMonitor_eq hi' x)]
    exact ⟨⟨setupMonitor_inv hi' x, href⟩, Or.inr (Or.inl ⟨x, rfl, setupMonitor_eq hi' x⟩)⟩
  | demonitor x =>
    rcases applyOp_cases hi (.remove x) with ⟨w', hok, hi', href', _⟩ | hbl
    · have hok' : removeMonitor k.world x = .ok w' := hok
      rw [workerStep_demonitor x hrun hok']
      exact ⟨⟨hi', href'.trans href⟩, Or.inr (Or.inr ⟨x, rfl, hok'⟩)⟩
    · have hbl' : removeMonitor k.world x = .error .blocked := hbl
      rw [workerStep_demonitor_stuck x hrun hbl'] at hrun'
      simp at hrun'

/-- Whatever a running worker does next, no `DownMessage` has been routed to a
pid whose name has no entry in `pid.scheduled`. -/
theorem workerStep_skips_unsubscribed {actor : Actor} {r m : PidRef} {k : Worker} (s : Signal)
    (hrun : k.status = .running) (hg : k.Good r) (hun : Unsubscribed k.world m) :
    downMessagesTo (workerStep actor k s).world m = [] := by
  obtain ⟨hi, _⟩ := hg
  have hquiet : ∀ w : World, MonInv w → downMessagesTo w m = [] := by
    intro w hw
    simp [downMessagesTo, hw.log]
  cases s with
  | quit =>
    simp only [workerStep, hrun]
    refine terminate_skips_unsubscribed ?_ ?_ _
    · exact hi.with_blocked _
    · exact hun
  | message =>
    cases hc : k.world.pid.messageChan with
    | none =>
      have he : workerStep actor k .message = k := by simp [workerStep, hrun, hc]
      rw [he]
      exact hquiet _ hi
    | some c =>
      cases hb : bufGet k.world.buffers c with
      | nil =>
        have he : workerStep actor k .message = k := by simp [workerStep, hrun, hc, hb]
        rw [he]
        exact hquiet _ hi
      | cons msg rest =>
        have he : workerStep actor k .message = handleMessage actor
            ({ k with world := { k.world with buffers := bufSet k.world.buffers c rest } })
            msg := by
          simp [workerStep, hrun, hc, hb]
        rw [he]
        by_cases hp : isPoisonPill msg = true
        · simp only [handleMessage, hp, if_true]
          refine terminate_skips_unsubscribed ?_ ?_ _
          · exact hi.with_buffers _
          · exact hun
        · cases hr : (execStmts k.ctx (actor.Run k.handled msg)).2.2 with
          | some v =>
            simp only [handleMessage, hp, hr, if_false]
            refine terminate_skips_unsubscribed ?_ ?_ _
            · exact hi.with_buffers _
            · exact hun
          | none =>
            simp only [handleMessage, hp, hr, if_false]
            exact hquiet _ (hi.with_buffers _)
  | monitor x =>
    have hi' : MonInv (served k.world (.monitor x)) := hi.with_blocked _
    rw [workerStep_monitor x hrun (setupMonitor_eq hi' x)]
    exact hquiet _ (setupMonitor_inv hi' x)
  | demonitor x =>
    rcases applyOp_cases hi (.remove x) with ⟨w', hok, hi', _, _⟩ | hbl
    · have hok' : removeMonitor k.world x = .ok w' := hok
      rw [workerStep_demonitor x hrun hok']
      exact hquiet _ hi'
    · have hbl' : removeMonitor k.world x = .error .blocked := hbl
      rw [workerStep_demonitor_stuck x hrun hbl']
      exact hquiet _ hi

theorem workerSteps_good {actor : Actor} {r : PidRef} (sigs : List Signal) :
    ∀ {k : Worker}, k.status = .running → k.Good r →
      (workerSteps actor k sigs).status = .running → (workerSteps actor k sigs).Good r := by
  induction sigs with
  | nil => intro k _ hg _; exact hg
  | cons s rest ih =>
    intro k hrun hg hrun'
    have h1 : (workerStep actor k s).status = .running :=
      workerSteps_running_left (a := [s]) (b := rest) hrun'
    exact ih h1 (workerStep_running s hrun hg h1).1 hrun'

theorem startActor_good {actor : Actor} {machineId : String}
    {machines : List (String × Machine)} {order : MapOrder} {registry : List Pid}
    {id : String} {base : Nat}
    {k0 : Worker} (h : startActor actor machineId machines order registry id base = some k0) :
    k0.status = .running ∧ k0.Good ⟨machineId, id⟩ := by
  unfold startActor at h
  simp only at h
  split at h
  · simp only [Option.some.injEq] at h
    subst h
    exact ⟨rfl, createPid_inv _ _ _ _ _ _, rfl⟩
  · simp at h

/-! ### Subscriptions across monitor requests -/

theorem unsubscribed_after_setup {w w' : World} (hi : MonInv w) {m : PidRef} (x : PidRef)
    (h : Unsubscribed w m) (hne : x.String ≠ m.String)
    (hs : setupMonitor w x = .ok w') : Unsubscribed w' m := by
  rw [setupMonitor_eq hi x] at hs
  simp only [Except.ok.injEq] at hs
  subst hs
  intro e he
  rcases mem_mapSet.mp he with rfl | ⟨hm, _⟩
  · exact hne
  · exact h e hm

theorem unsubscribed_after_remove {w w' : World} (hi : MonInv w) {m : PidRef} (x : PidRef)
    (h : Unsubscribed w m ∨ x = m) (hs : removeMonitor w x = .ok w') :
    Unsubscribed w' m := by
  cases hg : mapGet w.pid.quitMap x.String with
  | none => simp [removeMonitor_blocked x hg] at hs
  | some q =>
    obtain ⟨o, _, _, _, _, _, heq⟩ := removeMonitor_eq hi x (mapGet_some_mem hg)
    rw [heq] at hs
    simp only [Except.ok.injEq] at hs
    subst hs
    intro e he
    obtain ⟨hm, hk⟩ := mem_mapDelete.mp he
    rcases h with h | h
    · exact h e hm
    · exact h ▸ hk

/-! ### Callers that wait for the worker -/

theorem killWaits_eq (c : Context) (w : World) :
    ∃ l, killWaits c w = { w with blocked := l } := by
  unfold killWaits
  cases c.Kill w.machineId w.pid with
  | none => exact ⟨w.blocked, rfl⟩
  | some s => exact ⟨_, rfl⟩

theorem monitorWaits_eq (c : Context) (w : World) :
    ∃ l, monitorWaits c w = { w with blocked := l } := by
  unfold monitorWaits
  cases c.Monitor w.machineId w.pid false with
  | error f => exact ⟨_, rfl⟩
  | ok r => exact ⟨w.blocked, rfl⟩

theorem move_status {actor : Actor} {k : Worker} (x : Move) (h : k.status ≠ .running) :
    (move actor k x).status = k.status := by
  cases x with
  | select s => simp only [move, workerStep_not_running h]
  | Kill c =>
    cases hs : k.status with
    | running => exact absurd hs h
    | terminated => simp only [move, hs]
    | stuck f => simp only [move, hs]
  | Monitor c =>
    cases hs : k.status with
    | running => exact absurd hs h
    | terminated => simp only [move, hs]
    | stuck f => simp only [move, hs]

theorem moves_status {actor : Actor} (l : List Move) :
    ∀ {k : Worker}, k.status ≠ .running → (moves actor k l).status = k.status := by
  induction l with
  | nil => intro k _; rfl
  | cons x rest ih =>
    intro k h
    have h1 : (move actor k x).status ≠ .running := by
      rw [move_status x h]
      exact h
    simp only [moves]
    rw [ih h1, move_status x h]

theorem moves_append (actor : Actor) (a b : List Move) :
    ∀ k : Worker, moves actor k (a ++ b) = moves actor (moves actor k a) b := by
  induction a with
  | nil => intro k; rfl
  | cons s rest ih => intro k; exact ih (move actor k s)

theorem moves_running_left {actor : Actor} {k : Worker} {a b : List Move}
    (h : (moves actor k (a ++ b)).status = .running) :
    (moves actor k a).status = .running := by
  by_contra hn
  rw [moves_append, moves_status b hn] at h
  exact hn h

/-- A move that leaves the worker running keeps the invariant, and it keeps a
name out of `pid.scheduled` unless it is a subscribe request under that
name. -/
theorem move_running {actor : Actor} {r m : PidRef} {k : Worker} (x : Move)
    (hrun : k.status = .running) (hg : k.Good r)
    (hrun' : (move actor k x).status = .running) :
    (move actor k x).Good r ∧
    (Unsubscribed k.world m → (∀ s, x = .select s → Signal.subscribes m s = false) →
      Unsubscribed (move actor k x).world m) := by
  cases x with
  | select s =>
    obtain ⟨hg1, hw⟩ := workerStep_running s hrun hg hrun'
    refine ⟨hg1, fun hun hx => ?_⟩
    have hds := hx s rfl
    have hw' : (∃ b, (move actor k (.select s)).world = { k.world with buffers := b }) ∨
        (∃ x, s = .monitor x ∧
          setupMonitor (served k.world (.monitor x)) x = .ok (move actor k (.select s)).world) ∨
        (∃ x, s = .demonitor x ∧
          removeMonitor k.world x = .ok (move actor k (.select s)).world) := hw
    rcases hw' with ⟨b, hb⟩ | ⟨x, rfl, hx⟩ | ⟨x, rfl, hx⟩
    · rw [hb]
      exact hun
    · refine unsubscribed_after_setup (w := served k.world (.monitor x))
        (hg.1.with_blocked _) x hun ?_ hx
      simpa [Signal.subscribes] using hds
    · exact unsubscribed_after_remove hg.1 x (Or.inl hun) hx
  | Kill c =>
    obtain ⟨l, hl⟩ := killWaits_eq c k.world
    simp only [move, hrun, Worker.Good]
    rw [hl]
    exact ⟨⟨hg.1.with_blocked l, hg.2⟩, fun hun _ => hun⟩
  | Monitor c =>
    obtain ⟨l, hl⟩ := monitorWaits_eq c k.world
    simp only [move, hrun, Worker.Good]
    rw [hl]
    exact ⟨⟨hg.1.with_blocked l, hg.2⟩, fun hun _ => hun⟩

theorem moves_good {actor : Actor} {r : PidRef} (l : List Move) :
    ∀ {k : Worker}, k.status = .running → k.Good r →
      (moves actor k l).status = .running → (moves actor k l).Good r := by
  induction l with
  | nil => intro k _ hg _; exact hg
  | cons x rest ih =>
    intro k hrun hg hrun'
    have h1 : (move actor k x).status = .running :=
      moves_running_left (a := [x]) (b := rest) hrun'
    exact ih h1 (@move_running actor r r k x hrun hg h1).1 hrun'

theorem moves_unsubscribed {actor : Actor} {r m : PidRef} (l : List Move) :
    ∀ {k : Worker}, k.status = .running → k.Good r → Unsubscribed k.world m →
      (∀ s, Move.select s ∈ l → Signal.subscribes m s = false) →
      (moves actor k l).status = .running →
      Unsubscribed (moves actor k l).world m := by
  induction l with
  | nil => intro k _ _ hs _ _; exact hs
  | cons x rest ih =>
    intro k hrun hg hun hd hrun'
    have h1 : (move actor k x).status = .running :=
      moves_running_left (a := [x]) (b := rest) hrun'
    obtain ⟨hg1, hu1⟩ := @move_running actor r m k x hrun hg h1
    refine ih h1 hg1 (hu1 hun ?_) (fun s hs => hd s (List.mem_cons_of_mem _ hs)) hrun'
    intro s hs
    exact hd s (hs ▸ List.mem_cons_self _ _)

/-- A quit signal terminates a running worker whose world satisfies the
invariant exactly when, the sender of the signal apart, no caller of `Kill` or
`Monitor` waits on the pid with its read lock: otherwise `cleanup` waits for
that lock for ever. -/
theorem quit_terminates_iff {actor : Actor} {r : PidRef} {k : Worker}
    (hrun : k.status = .running) (hg : k.Good r) :
    (workerStep actor k .quit).status = .terminated ↔ k.world.blocked.erase .kill = [] := by
  simp only [workerStep, hrun]
  rw [terminate_status]
  constructor
  · rintro ⟨w', hc⟩
    exact cleanup_ok_free hc
  · intro h
    obtain ⟨w', hc, _⟩ := cleanup_spec (hg.1.with_blocked (k.world.blocked.erase .kill)) h
    exact ⟨w', hc⟩

/-- C1: the subscriber `sampleMonitor` calls `Monitor` on the actor `p` of the
tests and the worker of `p` serves the request.  When `Kill` is then called on
`p` once, the worker terminates and exactly one `DownMessage`, naming `p`, is
routed to the subscriber.  When `Kill` is called twice and both goroutines
have reached their send before the worker takes the quit signal, the worker
leaves its loop and `cleanup` waits for ever at `quitChanMu.Lock()`, because
the second goroutine holds the read lock in its send: the quit channel is
never closed, the watcher still waits, and no `DownMessage` is routed.  The
same happens at `monitorChanMu.Lock()` when a second caller of `Monitor` waits
in its send. -/
theorem second_Kill_blocks_cleanup :
    ((moves testTarget startedTarget
        [.Monitor monitorCtx, .select (.monitor sampleMonitor), .Kill callerCtx,
         .select .quit]).status = .terminated ∧
      (moves testTarget startedTarget
        [.Monitor monitorCtx, .select (.monitor sampleMonitor), .Kill callerCtx,
         .select .quit]).world.doSendLog =
        [(sampleMonitor, .DownMessagePtr startedTarget.world.pid.ref)]) ∧
    ((moves testTarget startedTarget
        [.Monitor monitorCtx, .select (.monitor sampleMonitor), .Kill callerCtx,
         .Kill callerCtx, .select .quit]).status = .stuck .blocked ∧
      (moves testTarget startedTarget
        [.Monitor monitorCtx, .select (.monitor sampleMonitor), .Kill callerCtx,
         .Kill callerCtx, .select .quit]).world.blocked = [.kill] ∧
      (moves testTarget startedTarget
        [.Monitor monitorCtx, .select (.monitor sampleMonitor), .Kill callerCtx,
         .Kill callerCtx, .select .quit]).world.pid.quitChan = some 0 ∧
      (moves testTarget startedTarget
        [.Monitor monitorCtx, .select (.monitor sampleMonitor), .Kill callerCtx,
         .Kill callerCtx, .select .quit]).world.closed = [] ∧
      (moves testTarget startedTarget
        [.Monitor monitorCtx, .select (.monitor sampleMonitor), .Kill callerCtx,
         .Kill callerCtx, .select .quit]).world.watchers =
        [⟨5, 4, sampleMonitor, .waiting⟩] ∧
      (moves testTarget startedTarget
        [.Monitor monitorCtx, .select (.monitor sampleMonitor), .Kill callerCtx,
         .Kill callerCtx, .select .quit]).world.doSendLog = []) ∧
    ((moves testTarget startedTarget
        [.Monitor monitorCtx, .select (.monitor sampleMonitor), .Monitor callerCtx,
         .Kill callerCtx, .select .quit]).status = .stuck .blocked ∧
      (moves testTarget startedTarget
        [.Monitor monitorCtx, .select (.monitor sampleMonitor), .Monitor callerCtx,
         .Kill callerCtx, .select .quit]).world.blocked = [.monitor callerCtx.self] ∧
      (moves testTarget startedTarget
        [.Monitor monitorCtx, .select (.monitor sampleMonitor), .Monitor callerCtx,
         .Kill callerCtx, .select .quit]).world.closed = [1, 0] ∧
      (moves testTarget startedTarget
        [.Monitor monitorCtx, .select (.monitor sampleMonitor), .Monitor callerCtx,
         .Kill callerCtx, .select .quit]).world.watchers =
        [⟨5, 4, sampleMonitor, .waiting⟩] ∧
      (moves testTarget startedTarget
        [.Monitor monitorCtx, .select (.monitor sampleMonitor), .Monitor callerCtx,
         .Kill callerCtx, .select .quit]).world.doSendLog = []) := by
  refine ⟨⟨rfl, rfl⟩, ⟨rfl, rfl, rfl, rfl, rfl, rfl⟩, ⟨rfl, rfl, rfl, rfl, rfl⟩⟩

/-- C5: a worker of a started actor has served requests, with callers of
`Kill` and `Monitor` arriving in between, and is running.  It serves the
subscribe request of `m` and then its unsubscribe request.  It is still
running; neither `pid.scheduled` nor `pid.monitorQuitChannels` has an entry
under the name of `m`; the watcher started for `m` has left through its cancel
branch and the other watchers are as before.  If the worker then serves
requests that do not subscribe under that name, again with callers arriving in
between, and is still running, then a quit signal terminates it exactly when,
the sender of that signal apart, no caller waits on the pid holding a read
lock; and whatever step the worker takes, whether `cleanup` runs in it to the
end or waits for a lock, no `DownMessage` has been routed to `m`. -/
theorem cancelled_monitor_gets_no_DownMessage (actor : Actor) (machineId : String)
    (machines : List (String × Machine)) (order : MapOrder) (registry : List Pid)
    (id : String) (base : Nat) (k0 k : Worker) (before later : List Move) (m : PidRef)
    (hstart : startActor actor machineId machines order registry id base = some k0)
    (hk : moves actor k0 before = k)
    (hrun : k.status = .running)
    (hlater : ∀ s, Move.select s ∈ later → Signal.subscribes m s = false) :
    (workerSteps actor k [.monitor m, .demonitor m]).status = .running ∧
    mapGet (workerSteps actor k [.monitor m, .demonitor m]).world.pid.scheduled m.String =
      none ∧
    mapGet (workerSteps actor k [.monitor m, .demonitor m]).world.pid.quitMap m.String =
      none ∧
    (workerSteps actor k [.monitor m, .demonitor m]).world.watchers =
      k.world.watchers ++ [⟨k.world.nextChan + 1, k.world.nextChan, m, .cancelled⟩] ∧
    ((moves actor k (.select (.monitor m) :: .select (.demonitor m) :: later)).status =
        .running →
      ((workerStep actor (moves actor k (.select (.monitor m) :: .select (.demonitor m) :: later))
          .quit).status = .terminated ↔
        (moves actor k (.select (.monitor m) :: .select (.demonitor m) :: later)).world.blocked.erase
          .kill = []) ∧
      ∀ s, downMessagesTo (workerStep actor
          (moves actor k (.select (.monitor m) :: .select (.demonitor m) :: later)) s).world m =
        []) := by
  obtain ⟨hrun0, hg0⟩ := startActor_good hstart
  subst hk
  have hg := moves_good before hrun0 hg0 hrun
  generalize moves actor k0 before = k at hrun hg
  have hi := hg.1
  -- the subscribe request
  have hi0 : MonInv (served k.world (.monitor m)) := hi.with_blocked _
  have hi1 := setupMonitor_inv hi0 m
  have he1 := @workerStep_monitor actor k m hrun _ (setupMonitor_eq hi0 m)
  -- the unsubscribe request
  have hq : (m.String, k.world.nextChan + 1) ∈
      ({ k.world.pid with
        scheduled := mapSet k.world.pid.scheduled m.String k.world.nextChan
        monitorQuitChannels :=
          some (mapSet k.world.pid.quitMap m.String (k.world.nextChan + 1)) } : Pid).quitMap := by
    simp [Pid.quitMap, mapSet]
  obtain ⟨x, _, _, _, _, _, heq⟩ := removeMonitor_eq hi1 m hq
  have hws : (k.world.watchers ++
      [(⟨k.world.nextChan + 1, k.world.nextChan, m, .waiting⟩ : Watcher)]).map
        (cancelOn (k.world.nextChan + 1)) =
      k.world.watchers ++ [⟨k.world.nextChan + 1, k.world.nextChan, m, .cancelled⟩] := by
    rw [List.map_append, map_cancelOn_self]
    · simp [cancelOn]
    · intro z hz e
      have := (hi.fresh z hz).1
      omega
  have hrun1 : (workerStep actor k (.monitor m)).status = .running := by
    rw [he1]
    exact hrun
  have he2 := @workerStep_demonitor actor (workerStep actor k (.monitor m)) m hrun1 _
    (by rw [he1]; exact heq)
  have hrun2 : (workerSteps actor k [.monitor m, .demonitor m]).status = .running := by
    simp only [workerSteps]
    rw [he2]
    exact hrun1
  have hw2 : (workerSteps actor k [.monitor m, .demonitor m]).world =
      { k.world with
        nextChan := k.world.nextChan + 2
        watchers := k.world.watchers ++
          [⟨k.world.nextChan + 1, k.world.nextChan, m, .cancelled⟩]
        closed := x.monitorChannel :: (k.world.nextChan + 1) :: k.world.closed
        blocked := k.world.blocked.erase (.monitor m)
        pid := { k.world.pid with
          scheduled := mapDelete (mapSet k.world.pid.scheduled m.String k.world.nextChan)
            m.String
          monitorQuitChannels := some (mapDelete
            (mapSet k.world.pid.quitMap m.String (k.world.nextChan + 1)) m.String) } } := by
    simp only [workerSteps]
    rw [he2]
    simp [served, hws, Pid.deleteQuit]
  have hg2 := workerSteps_good [.monitor m, .demonitor m] hrun hg hrun2
  have hun2 : Unsubscribed (workerSteps actor k [.monitor m, .demonitor m]).world m := by
    rw [hw2]
    intro e he
    exact (mem_mapDelete.mp he).2
  refine ⟨hrun2, ?_, ?_, ?_, ?_⟩
  · rw [hw2]
    exact mapGet_mapDelete _ _
  · rw [hw2]
    simp only [Pid.quitMap, Option.getD_some]
    exact mapGet_mapDelete _ _
  · rw [hw2]
  · intro hrunL
    have hsplit : moves actor k (.select (.monitor m) :: .select (.demonitor m) :: later) =
        moves actor (workerSteps actor k [.monitor m, .demonitor m]) later := rfl
    rw [hsplit] at hrunL ⊢
    have hgL := moves_good later hrun2 hg2 hrunL
    have hunL := moves_unsubscribed later hrun2 hg2 hun2 hlater hrunL
    exact ⟨quit_terminates_iff hrunL hgL,
      fun s => workerStep_skips_unsubscribed s hrunL hgL hunL⟩

/-- A witness for C5: the actor `p` of the tests serves a subscribe request of
`remotePid`, then the subscribe and unsubscribe requests of `sampleMonitor`;
`Kill` is called on it and it takes the quit signal. -/
theorem cancelled_monitor_gets_no_DownMessage_witness :
    startActor testTarget "m1" [] MapOrder.stored [] "p1" 0 = some startedTarget ∧
    (moves testTarget startedTarget [.select (.monitor remotePid.ref)]).status = .running ∧
    (workerSteps testTarget (moves testTarget startedTarget [.select (.monitor remotePid.ref)])
      [.monitor sampleMonitor, .demonitor sampleMonitor]).world.watchers =
      [⟨5, 4, remotePid.ref, .waiting⟩, ⟨7, 6, sampleMonitor, .cancelled⟩] ∧
    (workerStep testTarget (moves testTarget
      (moves testTarget startedTarget [.select (.monitor remotePid.ref)])
      [.select (.monitor sampleMonitor), .select (.demonitor sampleMonitor), .Kill callerCtx])
      .quit).status = .terminated ∧
    downMessagesTo (workerStep testTarget (moves testTarget
      (moves testTarget startedTarget [.select (.monitor remotePid.ref)])
      [.select (.monitor sampleMonitor), .select (.demonitor sampleMonitor), .Kill callerCtx])
      .quit).world sampleMonitor = [] :=
  ⟨rfl, rfl,
    (cancelled_monitor_gets_no_DownMessage testTarget "m1" [] MapOrder.stored [] "p1" 0
      startedTarget _ [.select (.monitor remotePid.ref)] [.Kill callerCtx] sampleMonitor
      rfl rfl rfl (fun _ h => by simp at h)).2.2.2.1,
    ((cancelled_monitor_gets_no_DownMessage testTarget "m1" [] MapOrder.stored [] "p1" 0
      startedTarget _ [.select (.monitor remotePid.ref)] [.Kill callerCtx] sampleMonitor
      rfl rfl rfl (fun _ h => by simp at h)).2.2.2.2 rfl).1.mpr rfl,
    ((cancelled_monitor_gets_no_DownMessage testTarget "m1" [] MapOrder.stored [] "p1" 0
      startedTarget _ [.select (.monitor remotePid.ref)] [.Kill callerCtx] sampleMonitor
      rfl rfl rfl (fun _ h => by simp at h)).2.2.2.2 rfl).2 .quit⟩

/-- C9: two subscribe requests of the same subscriber followed by a kill.
The worker terminates and both maps are empty, but the watcher started by the
first request has received neither fire nor cancel: it is still waiting, and
its two channels were never closed. -/
theorem resubscription_leaves_a_watcher_waiting :
    (workerSteps testTarget startedTarget
        [.monitor sampleMonitor, .monitor sampleMonitor, .quit]).status = .terminated ∧
    (workerSteps testTarget startedTarget
        [.monitor sampleMonitor, .monitor sampleMonitor, .quit]).world.pid.scheduled = [] ∧
    (workerSteps testTarget startedTarget
        [.monitor sampleMonitor, .monitor sampleMonitor, .quit]).world.pid.quitMap = [] ∧
    (workerSteps testTarget startedTarget
        [.monitor sampleMonitor, .monitor sampleMonitor, .quit]).world.watchers =
      [⟨5, 4, sampleMonitor, .waiting⟩, ⟨7, 6, sampleMonitor, .fired⟩] ∧
    (workerSteps testTarget startedTarget
        [.monitor sampleMonitor, .monitor sampleMonitor, .quit]).world.closed =
      [7, 6, 3, 2, 1, 0] := by
  refine ⟨rfl, rfl, rfl, rfl, rfl⟩

end Quacktors
